import Mathlib

/- Verification development for the nanoclaw skills engine: a shallow
   embedding of the structured-merger module (npm, env-file, docker-compose,
   langgraph registry, pyproject and requirements mergers) and of the
   migration-runner script, together with theorems settling the behavioural
   claims of the specification against this embedding. -/

namespace Nanoclaw

/-! ## Association lists as JavaScript objects

JavaScript objects and Maps are modelled as association lists with string
keys: insertion order is preserved, lookup returns the first matching
entry, assignment updates an existing key in place and appends a fresh
key at the end. -/

abbrev AList (α : Type) := List (String × α)

/-- JavaScript property read: the value bound to key k, if present. -/
def recGet {α : Type} (r : AList α) (k : String) : Option α :=
  match r.find? (fun e => e.1 == k) with
  | some e => some e.2
  | none => none

/-- JavaScript property write: replace in place when the key exists,
append otherwise. -/
def recSet {α : Type} : AList α → String → α → AList α
  | [], k, v => [(k, v)]
  | (k1, v1) :: rest, k, v =>
    if k1 = k then (k, v) :: rest else (k1, v1) :: recSet rest k v

/-- The keys of an object, in order. -/
def recKeys {α : Type} (r : AList α) : List String :=
  r.map (fun e => e.1)

theorem recGet_nil {α : Type} (k : String) : recGet ([] : AList α) k = none := rfl

theorem recGet_cons {α : Type} (k1 : String) (v1 : α) (rest : AList α) (k : String) :
    recGet ((k1, v1) :: rest) k = if k1 = k then some v1 else recGet rest k := by
  by_cases h : k1 = k
  · simp [recGet, List.find?, h]
  · have hb : (k1 == k) = false := by simp [h]
    simp [recGet, List.find?, hb, h]

theorem recGet_recSet_self {α : Type} (r : AList α) (k : String) (v : α) :
    recGet (recSet r k v) k = some v := by
  induction r with
  | nil => simp [recSet, recGet_cons]
  | cons e rest ih =>
    obtain ⟨k1, v1⟩ := e
    simp only [recSet]
    by_cases h : k1 = k
    · simp [h, recGet_cons]
    · simp [h, recGet_cons, ih]

theorem recGet_recSet_ne {α : Type} (r : AList α) (k k2 : String) (v : α)
    (hne : k ≠ k2) : recGet (recSet r k v) k2 = recGet r k2 := by
  induction r with
  | nil => simp [recSet, recGet_cons, recGet_nil, hne]
  | cons e rest ih =>
    obtain ⟨k1, v1⟩ := e
    simp only [recSet]
    by_cases h : k1 = k
    · subst h
      simp [recGet_cons, hne]
    · simp only [if_neg h]
      rw [recGet_cons, recGet_cons, ih]

theorem recKeys_recSet {α : Type} (r : AList α) (k : String) (v : α) :
    recKeys (recSet r k v) = if k ∈ recKeys r then recKeys r else recKeys r ++ [k] := by
  induction r with
  | nil => simp [recSet, recKeys]
  | cons e rest ih =>
    obtain ⟨k1, v1⟩ := e
    simp only [recSet, recKeys, List.map_cons] at ih ⊢
    by_cases h : k1 = k
    · subst h
      simp
    · have hne : ¬ k = k1 := fun hh => h hh.symm
      simp only [if_neg h, List.map_cons, List.mem_cons, hne, false_or]
      rw [ih]
      by_cases hm : k ∈ List.map (fun e => e.1) rest
      · simp [hm]
      · simp [hm]

/-- recGet found an entry exactly when the key is present. -/
theorem recGet_isSome_iff_mem {α : Type} (r : AList α) (k : String) :
    (recGet r k).isSome = true ↔ k ∈ recKeys r := by
  induction r with
  | nil => simp [recGet_nil, recKeys]
  | cons e rest ih =>
    obtain ⟨k1, v1⟩ := e
    rw [recGet_cons]
    by_cases h : k1 = k
    · subst h
      simp [recKeys]
    · have hne : ¬ k = k1 := fun hh => h hh.symm
      simp only [if_neg h, recKeys, List.map_cons, List.mem_cons, hne, false_or]
      exact ih

/-! ## JavaScript string primitives

The sources split strings with the String.split method (single-character
separators only) and test characters with regular-expression character
classes; both are embedded below over lists of characters. -/

/-- Split on a one-character separator, keeping empty pieces; the
accumulator holds the current piece reversed. -/
def splitCharAux (sep : Char) : List Char → List Char → List (List Char)
  | [], acc => [acc.reverse]
  | c :: cs, acc =>
    if c = sep then acc.reverse :: splitCharAux sep cs []
    else splitCharAux sep cs (c :: acc)

/-- JavaScript String.split with a one-character separator: the empty
string yields one empty piece, and adjacent separators yield empty
pieces. -/
def jsSplitChar (sep : Char) (s : String) : List String :=
  (splitCharAux sep s.toList []).map (fun l => String.mk l)

theorem splitCharAux_ne_nil (sep : Char) (cs : List Char) (acc : List Char) :
    splitCharAux sep cs acc ≠ [] := by
  induction cs generalizing acc with
  | nil => simp [splitCharAux]
  | cons c cs ih =>
    simp only [splitCharAux]
    by_cases h : c = sep
    · simp [h]
    · simp only [if_neg h]
      exact ih _

theorem splitCharAux_head (sep : Char) (cs : List Char) (acc : List Char) :
    (splitCharAux sep cs acc).head? =
      some (acc.reverse ++ cs.takeWhile (fun c => !(c == sep))) := by
  induction cs generalizing acc with
  | nil => simp [splitCharAux]
  | cons c cs ih =>
    simp only [splitCharAux, List.takeWhile]
    by_cases h : c = sep
    · simp [h]
    · have hb : (c == sep) = false := by simp [h]
      simp only [if_neg h, hb, Bool.not_false]
      rw [ih]
      simp

theorem splitCharAux_length (sep : Char) (cs : List Char) (acc : List Char) :
    2 ≤ (splitCharAux sep cs acc).length ↔ sep ∈ cs := by
  induction cs generalizing acc with
  | nil => simp [splitCharAux]
  | cons c cs ih =>
    simp only [splitCharAux]
    by_cases h : c = sep
    · have hnil := splitCharAux_ne_nil sep cs ([] : List Char)
      rw [if_pos h]
      simp only [List.length_cons, List.mem_cons]
      constructor
      · intro _
        exact Or.inl h.symm
      · intro _
        have h1 : 1 ≤ (splitCharAux sep cs []).length := by
          cases hh : splitCharAux sep cs [] with
          | nil => exact absurd hh hnil
          | cons a l => simp
        omega
    · have hne : ¬ sep = c := fun hh => h hh.symm
      simp only [if_neg h, List.mem_cons, hne, false_or]
      exact ih _

/-! ## JavaScript parseInt and numeric version components -/

/-- Value of a list of decimal digit characters, most significant first. -/
def digitsVal (cs : List Char) : Nat :=
  cs.foldl (fun n c => 10 * n + (c.toNat - 48)) 0

/-- A canonical numeric version component: nonempty, decimal digits only. -/
def isDigitString (s : String) : Bool :=
  !s.toList.isEmpty && s.toList.all (fun c => c.isDigit)

/-- JavaScript parseInt(s, 10): skip leading whitespace, one optional
sign, then the longest run of decimal digits; the result is NaN (none)
when that run is empty, and trailing junk is ignored. -/
def parseIntJS10 (s : String) : Option Int :=
  let cs := s.data.dropWhile (fun c => c.isWhitespace)
  let cs2 := if cs.head? = some '-' ∨ cs.head? = some '+' then cs.tail else cs
  let ds := cs2.takeWhile (fun c => c.isDigit)
  if ds.isEmpty then none
  else if cs.head? = some '-' then some (-(digitsVal ds : Int))
  else some ((digitsVal ds : Int))

theorem not_whitespace_of_digit (c : Char) (h : c.isDigit = true) :
    c.isWhitespace = false := by
  cases hw : c.isWhitespace
  · rfl
  · exfalso
    have hws : c = ' ' ∨ c = '\t' ∨ c = '\r' ∨ c = '\n' := by
      simpa [Char.isWhitespace, or_assoc] using hw
    rcases hws with h1 | h1 | h1 | h1 <;> rw [h1] at h <;> exact absurd h (by decide)

theorem takeWhile_eq_self_of_all {α : Type} (p : α → Bool) (l : List α)
    (h : l.all p = true) : l.takeWhile p = l := by
  induction l with
  | nil => rfl
  | cons c cs ih =>
    simp only [List.all_cons, Bool.and_eq_true] at h
    simp [List.takeWhile_cons, h.1, ih h.2]

/-- parseInt evaluates a nonempty all-digit string to its decimal value. -/
theorem parseIntJS10_digits (cs : List Char) (hne : cs ≠ [])
    (h : cs.all (fun c => c.isDigit) = true) :
    parseIntJS10 (String.mk cs) = some ((digitsVal cs : Int)) := by
  obtain ⟨c, rest, rfl⟩ : ∃ c rest, cs = c :: rest := by
    cases cs with
    | nil => exact absurd rfl hne
    | cons c rest => exact ⟨c, rest, rfl⟩
  simp only [List.all_cons, Bool.and_eq_true] at h
  have hws : c.isWhitespace = false := not_whitespace_of_digit c h.1
  have hminus : ¬ c = '-' := by
    intro hc
    rw [hc] at h
    exact absurd h.1 (by decide)
  have hplus : ¬ c = '+' := by
    intro hc
    rw [hc] at h
    exact absurd h.1 (by decide)
  have hsign : ¬ ((c :: rest).head? = some '-' ∨ (c :: rest).head? = some '+') := by
    intro hc
    rcases hc with hc | hc <;> rw [List.head?_cons, Option.some_inj] at hc
    · exact hminus hc
    · exact hplus hc
  have hsome : ¬ ((c :: rest).head? = some '-') := by
    intro hc
    rw [List.head?_cons, Option.some_inj] at hc
    exact hminus hc
  have htw : (c :: rest).takeWhile (fun c => c.isDigit) = c :: rest := by
    apply takeWhile_eq_self_of_all
    simp [List.all_cons, h.1, h.2]
  have hdata : (String.mk (c :: rest)).data = c :: rest := rfl
  simp only [parseIntJS10, hdata, List.dropWhile_cons, hws, Bool.false_eq_true, if_false,
    if_neg hsign, htw, List.isEmpty_cons, if_neg hsome]

/-! ## The version-part comparator

compareVersionParts from the structured merger module walks both
component lists in parallel up to the longer length, reading absent
components as the string "0", parses each pair with parseInt, and
returns the first nonzero numeric difference, zero when every pair
agrees, or NaN (none) as soon as a component fails to parse while the
comparison is still undecided. -/

/-- Parallel walk over both component lists, padding the shorter one
with the string "0" (a[i] ?? "0" in the source). -/
def padZip : List String → List String → List (String × String)
  | [], bs => bs.map (fun b => ("0", b))
  | a :: as, bs => (a, bs.headD "0") :: padZip as bs.tail

/-- The comparison loop of compareVersionParts. -/
def cvpLoop : List (String × String) → Option Int
  | [] => some 0
  | (a, b) :: rest =>
    match parseIntJS10 a, parseIntJS10 b with
    | some x, some y => if x = y then cvpLoop rest else some (x - y)
    | _, _ => none

/-- compareVersionParts(a, b) from the structured merger module. -/
def compareVersionParts (a b : List String) : Option Int :=
  cvpLoop (padZip a b)

/-- Truthiness of the JavaScript test cmp >= 0; false when cmp is NaN. -/
def cvpGe0 : Option Int → Bool
  | some x => decide (0 ≤ x)
  | none => false

/-! Specification-side comparison: componentwise numeric order on
zero-padded lists of naturals, valued in -1, 0, 1. -/

def padZipN : List Nat → List Nat → List (Nat × Nat)
  | [], bs => bs.map (fun b => (0, b))
  | a :: as, bs => (a, bs.headD 0) :: padZipN as bs.tail

def pairCmpN : List (Nat × Nat) → Int
  | [] => 0
  | (x, y) :: rest => if x < y then -1 else if y < x then 1 else pairCmpN rest

/-- Numeric comparison of two version-component lists with zero padding:
negative, zero, or positive as the first is below, equal to, or above
the second. -/
def cmpPaddedNats (a b : List Nat) : Int :=
  pairCmpN (padZipN a b)

/-- Numeric value of a digit-string component. -/
def componentVal (s : String) : Nat := digitsVal s.data

def natsOf (parts : List String) : List Nat := parts.map componentVal

theorem pairCmpN_cases (l : List (Nat × Nat)) :
    pairCmpN l = -1 ∨ pairCmpN l = 0 ∨ pairCmpN l = 1 := by
  induction l with
  | nil => right; left; rfl
  | cons p rest ih =>
    obtain ⟨x, y⟩ := p
    simp only [pairCmpN]
    by_cases h1 : x < y
    · simp [h1]
    · by_cases h2 : y < x
      · simp [h1, h2]
      · simpa [h1, h2] using ih

theorem padZipN_natsOf (a : List String) : ∀ b : List String,
    padZipN (natsOf a) (natsOf b) =
      (padZip a b).map (fun p => (componentVal p.1, componentVal p.2)) := by
  induction a with
  | nil =>
    intro b
    simp only [natsOf, List.map_nil, padZipN, padZip, List.map_map]
    rfl
  | cons x as iha =>
    intro b
    cases b with
    | nil =>
      simp only [natsOf, List.map_cons, List.map_nil] at iha ⊢
      simp only [padZipN, padZip, List.headD_nil, List.tail_nil, List.map_cons]
      have h1 := iha []
      simp only [List.map_nil] at h1
      rw [h1]
      rfl
    | cons y bs =>
      simp only [natsOf, List.map_cons] at iha ⊢
      simp only [padZipN, padZip, List.headD_cons, List.tail_cons, List.map_cons]
      rw [iha bs]

theorem padZip_mem (a : List String) : ∀ (b : List String) (p : String × String),
    p ∈ padZip a b → (p.1 ∈ a ∨ p.1 = "0") ∧ (p.2 ∈ b ∨ p.2 = "0") := by
  induction a with
  | nil =>
    intro b p hp
    simp only [padZip, List.mem_map] at hp
    obtain ⟨x, hx, rfl⟩ := hp
    exact ⟨Or.inr rfl, Or.inl hx⟩
  | cons x as iha =>
    intro b p hp
    simp only [padZip, List.mem_cons] at hp
    rcases hp with rfl | hp
    · refine ⟨Or.inl (List.mem_cons_self _ _), ?_⟩
      cases b with
      | nil => exact Or.inr rfl
      | cons y bs => exact Or.inl (List.mem_cons_self _ _)
    · obtain ⟨h1, h2⟩ := iha b.tail p hp
      refine ⟨?_, ?_⟩
      · rcases h1 with h1 | h1
        · exact Or.inl (List.mem_cons_of_mem _ h1)
        · exact Or.inr h1
      · rcases h2 with h2 | h2
        · cases b with
          | nil => simp at h2
          | cons y bs => exact Or.inl (List.mem_cons_of_mem _ h2)
        · exact Or.inr h2

/-- On digit-string components, the comparison loop never meets NaN and
its sign agrees with the componentwise numeric comparison. -/
theorem cvpLoop_spec (l : List (String × String))
    (h : ∀ p ∈ l, isDigitString p.1 = true ∧ isDigitString p.2 = true) :
    ∃ r : Int, cvpLoop l = some r ∧
      ((r < 0 ↔ pairCmpN (l.map (fun p => (componentVal p.1, componentVal p.2))) = -1) ∧
       (r = 0 ↔ pairCmpN (l.map (fun p => (componentVal p.1, componentVal p.2))) = 0) ∧
       (0 < r ↔ pairCmpN (l.map (fun p => (componentVal p.1, componentVal p.2))) = 1)) := by
  induction l with
  | nil =>
    refine ⟨0, rfl, ?_⟩
    simp [pairCmpN]
  | cons p rest ih =>
    obtain ⟨a, b⟩ := p
    obtain ⟨ha, hb⟩ := h (a, b) (List.mem_cons_self _ _)
    have hrest : ∀ q ∈ rest, isDigitString q.1 = true ∧ isDigitString q.2 = true :=
      fun q hq => h q (List.mem_cons_of_mem _ hq)
    simp only [isDigitString, Bool.and_eq_true, Bool.not_eq_true',
      String.toList] at ha hb
    have hane : a.data ≠ [] := by
      intro hnil
      rw [hnil] at ha
      exact absurd ha.1 (by decide)
    have hbne : b.data ≠ [] := by
      intro hnil
      rw [hnil] at hb
      exact absurd hb.1 (by decide)
    have hpa : parseIntJS10 a = some ((digitsVal a.data : Int)) :=
      parseIntJS10_digits a.data hane ha.2
    have hpb : parseIntJS10 b = some ((digitsVal b.data : Int)) :=
      parseIntJS10_digits b.data hbne hb.2
    simp only [cvpLoop, hpa, hpb, List.map_cons, pairCmpN, componentVal]
    by_cases hn : digitsVal a.data = digitsVal b.data
    · rw [if_pos (by exact_mod_cast hn)]
      obtain ⟨r, hr, h1, h2, h3⟩ := ih hrest
      refine ⟨r, hr, ?_⟩
      rw [hn]
      simp only [lt_irrefl, if_false]
      exact ⟨h1, h2, h3⟩
    · rw [if_neg (fun hc => hn (by exact_mod_cast hc))]
      refine ⟨(digitsVal a.data : Int) - (digitsVal b.data : Int), rfl, ?_⟩
      by_cases hlt : digitsVal a.data < digitsVal b.data
      · rw [if_pos hlt]
        refine ⟨⟨fun hc => rfl, fun hc => by omega⟩, ⟨fun hc => by omega, fun hc => by omega⟩,
          ⟨fun hc => by omega, fun hc => by omega⟩⟩
      · have hgt : digitsVal b.data < digitsVal a.data := by omega
        rw [if_neg hlt, if_pos hgt]
        exact ⟨⟨fun hc => by omega, fun hc => by omega⟩, ⟨fun hc => by omega, fun hc => by omega⟩,
          ⟨fun hc => by omega, fun hc => by omega⟩⟩

/-- compareVersionParts on digit-string component lists: defined (no
NaN) and signed exactly as the zero-padded numeric comparison. -/
theorem compareVersionParts_spec (a b : List String)
    (ha : ∀ s ∈ a, isDigitString s = true) (hb : ∀ s ∈ b, isDigitString s = true) :
    ∃ r : Int, compareVersionParts a b = some r ∧
      ((r < 0 ↔ cmpPaddedNats (natsOf a) (natsOf b) = -1) ∧
       (r = 0 ↔ cmpPaddedNats (natsOf a) (natsOf b) = 0) ∧
       (0 < r ↔ cmpPaddedNats (natsOf a) (natsOf b) = 1)) := by
  have hmem : ∀ p ∈ padZip a b, isDigitString p.1 = true ∧ isDigitString p.2 = true := by
    intro p hp
    obtain ⟨h1, h2⟩ := padZip_mem a b p hp
    constructor
    · rcases h1 with h1 | h1
      · exact ha _ h1
      · rw [h1]; decide
    · rcases h2 with h2 | h2
      · exact hb _ h2
      · rw [h2]; decide
  obtain ⟨r, hr, hsig⟩ := cvpLoop_spec (padZip a b) hmem
  refine ⟨r, hr, ?_⟩
  rw [cmpPaddedNats, padZipN_natsOf]
  exact hsig

/-! ## A stable model of JavaScript Array.sort

The sources sort with Array.prototype.sort under a numeric comparator;
since ES2019 the result is specified to be a stable, sorted permutation
of the input, which insertion sort realizes. -/

def insertSorted {α : Type} (le : α → α → Bool) (x : α) : List α → List α
  | [] => [x]
  | y :: ys => if le x y then x :: y :: ys else y :: insertSorted le x ys

def jsSortBy {α : Type} (le : α → α → Bool) (l : List α) : List α :=
  l.foldr (insertSorted le) []

theorem insertSorted_perm {α : Type} (le : α → α → Bool) (x : α) (l : List α) :
    (insertSorted le x l).Perm (x :: l) := by
  induction l with
  | nil => exact List.Perm.refl _
  | cons y ys ih =>
    simp only [insertSorted]
    by_cases h : le x y
    · rw [if_pos h]
    · rw [if_neg h]
      exact (List.Perm.cons y ih).trans (List.Perm.swap x y ys)

theorem jsSortBy_perm {α : Type} (le : α → α → Bool) (l : List α) :
    (jsSortBy le l).Perm l := by
  induction l with
  | nil => exact List.Perm.refl _
  | cons x xs ih =>
    simp only [jsSortBy, List.foldr_cons] at ih ⊢
    exact (insertSorted_perm le x _).trans (List.Perm.cons x ih)

theorem insertSorted_head {α : Type} (le : α → α → Bool) (x : α) (l : List α) :
    (insertSorted le x l).head? = some x ∨ (insertSorted le x l).head? = l.head? := by
  cases l with
  | nil => exact Or.inl rfl
  | cons y ys =>
    simp only [insertSorted]
    by_cases h : le x y
    · rw [if_pos h]
      exact Or.inl rfl
    · rw [if_neg h]
      exact Or.inr rfl

theorem chain_insertSorted {α : Type} (le : α → α → Bool)
    (htot : ∀ a b, le a b = true ∨ le b a = true) (x : α) (l : List α)
    (h : List.Chain' (fun a b => le a b = true) l) :
    List.Chain' (fun a b => le a b = true) (insertSorted le x l) := by
  induction l with
  | nil => simp [insertSorted]
  | cons y ys ih =>
    simp only [insertSorted]
    by_cases hxy : le x y
    · rw [if_pos hxy]
      exact List.Chain'.cons hxy h
    · rw [if_neg hxy]
      have hyx : le y x = true := by
        rcases htot x y with hh | hh
        · exact absurd hh hxy
        · exact hh
      rw [List.chain'_cons'] at h
      obtain ⟨hhead, htail⟩ := h
      rw [List.chain'_cons']
      refine ⟨?_, ih htail⟩
      intro z hz
      rcases insertSorted_head le x ys with hh | hh
      · rw [Option.mem_def, hh, Option.some_inj] at hz
        rw [← hz]
        exact hyx
      · rw [Option.mem_def, hh] at hz
        exact hhead z hz

theorem chain_jsSortBy {α : Type} (le : α → α → Bool)
    (htot : ∀ a b, le a b = true ∨ le b a = true) (l : List α) :
    List.Chain' (fun a b => le a b = true) (jsSortBy le l) := by
  induction l with
  | nil => simp [jsSortBy]
  | cons x xs ih =>
    simp only [jsSortBy, List.foldr_cons]
    exact chain_insertSorted le htot x _ ih

/-- With duplicate-free keys, lookup is determined by membership. -/
theorem recGet_eq_some_iff {α : Type} (l : AList α) (hnd : (recKeys l).Nodup)
    (k : String) (v : α) : recGet l k = some v ↔ (k, v) ∈ l := by
  induction l with
  | nil => simp [recGet_nil]
  | cons e rest ih =>
    obtain ⟨k1, v1⟩ := e
    simp only [recKeys, List.map_cons, List.nodup_cons] at hnd
    rw [recGet_cons]
    by_cases h : k1 = k
    · subst h
      rw [if_pos rfl]
      constructor
      · intro hv
        have hv2 : v1 = v := Option.some_inj.mp hv
        rw [← hv2]
        exact List.mem_cons_self _ _
      · intro hv
        rcases List.mem_cons.mp hv with heq | hmem
        · have hv2 : v = v1 := congrArg Prod.snd heq
          rw [hv2]
        · exfalso
          apply hnd.1
          exact List.mem_map_of_mem (fun e => e.1) hmem
    · rw [if_neg h, ih hnd.2]
      constructor
      · exact fun hv => List.mem_cons_of_mem _ hv
      · intro hv
        rcases List.mem_cons.mp hv with heq | hmem
        · exact absurd (congrArg Prod.fst heq).symm h
        · exact hmem

/-- Lookup is invariant under permutation when keys are duplicate-free. -/
theorem recGet_perm {α : Type} (l l2 : AList α) (hperm : l.Perm l2)
    (hnd : (recKeys l).Nodup) (k : String) : recGet l k = recGet l2 k := by
  have hnd2 : (recKeys l2).Nodup := by
    have hpk : (recKeys l).Perm (recKeys l2) := by
      simp only [recKeys]
      exact hperm.map (fun e => e.1)
    exact hpk.nodup_iff.mp hnd
  cases hv : recGet l k with
  | some v =>
    have hm : (k, v) ∈ l := (recGet_eq_some_iff l hnd k v).mp hv
    exact ((recGet_eq_some_iff l2 hnd2 k v).mpr (hperm.mem_iff.mp hm)).symm
  | none =>
    cases hv2 : recGet l2 k with
    | none => rfl
    | some v2 =>
      exfalso
      have hm : (k, v2) ∈ l2 := (recGet_eq_some_iff l2 hnd2 k v2).mp hv2
      have hm2 : (k, v2) ∈ l := hperm.mem_iff.mpr hm
      have : recGet l k = some v2 := (recGet_eq_some_iff l hnd k v2).mpr hm2
      rw [hv] at this
      exact Option.noConfusion this

/-- recSet preserves duplicate-freeness of the keys. -/
theorem recKeys_recSet_nodup {α : Type} (r : AList α) (k : String) (v : α)
    (hnd : (recKeys r).Nodup) : (recKeys (recSet r k v)).Nodup := by
  rw [recKeys_recSet]
  by_cases h : k ∈ recKeys r
  · rw [if_pos h]
    exact hnd
  · rw [if_neg h]
    simp [List.nodup_append, hnd, h]

deriving instance DecidableEq for Except

/-! ## JavaScript string methods used by the mergers -/

/-- JavaScript String.startsWith. -/
def jsStartsWith (s pre : String) : Bool := pre.data.isPrefixOf s.data

/-- JavaScript String.endsWith. -/
def jsEndsWith (s suffix : String) : Bool := suffix.data.isSuffixOf s.data

/-- JavaScript String.trim (ASCII whitespace). -/
def jsTrim (s : String) : String :=
  String.mk (((s.data.dropWhile (fun c => c.isWhitespace)).reverse.dropWhile
    (fun c => c.isWhitespace)).reverse)

/-- JavaScript String.toLowerCase (ASCII). -/
def jsToLower (s : String) : String := String.mk (s.data.map Char.toLower)

/-- JavaScript String.slice(1): drop the first UTF-16 code unit (all the
range strings under study are ASCII). -/
def jsSlice1 (s : String) : String := String.mk s.data.tail

/-! ## The npm dependency merger

areRangesCompatible and mergeNpmDependencies from the structured merger
module. The manifest is modelled by its two dependency sections; other
fields of package.json pass through the merge untouched. The exported
function reads the manifest at the given path and writes the merged
manifest back; its pure core is split out below so the merge policy can
be reasoned about directly. Parsing and serialization (JSON.parse and
JSON.stringify) are abstracted by letting the filesystem map each path
to its parsed document. -/

structure RangeCompat where
  compatible : Bool
  resolved : String
deriving Repr, DecidableEq

/-- areRangesCompatible(existing, requested): identical ranges are kept;
two caret ranges with the same (textual) major component resolve to the
parseInt-wise higher one; two tilde ranges with the same major and minor
components resolve to the higher one; everything else is incompatible. -/
def areRangesCompatible (existing requested : String) : RangeCompat :=
  if existing = requested then ⟨true, existing⟩
  else if jsStartsWith existing "^" && jsStartsWith requested "^" then
    if (jsSplitChar '.' (jsSlice1 existing))[0]? ≠ (jsSplitChar '.' (jsSlice1 requested))[0]? then
      ⟨false, existing⟩
    else
      ⟨true, if cvpGe0 (compareVersionParts (jsSplitChar '.' (jsSlice1 existing))
          (jsSplitChar '.' (jsSlice1 requested))) then existing else requested⟩
  else if jsStartsWith existing "~" && jsStartsWith requested "~" then
    if (jsSplitChar '.' (jsSlice1 existing))[0]? ≠ (jsSplitChar '.' (jsSlice1 requested))[0]? ∨
        (jsSplitChar '.' (jsSlice1 existing))[1]? ≠ (jsSplitChar '.' (jsSlice1 requested))[1]? then
      ⟨false, existing⟩
    else
      ⟨true, if cvpGe0 (compareVersionParts (jsSplitChar '.' (jsSlice1 existing))
          (jsSplitChar '.' (jsSlice1 requested))) then existing else requested⟩
  else ⟨false, existing⟩

structure PackageJson where
  dependencies : Option (AList String)
  devDependencies : Option (AList String)
deriving Repr, DecidableEq

/-- The dependency-conflict error text thrown by mergeNpmDependencies. -/
def depConflictMsg (name existing version : String) : String :=
  "Dependency conflict: " ++ name ++ " is already at " ++ existing ++
    ", skill wants " ++ version

/-- One iteration of the merge loop of mergeNpmDependencies: look the
name up in dependencies, falling back to devDependencies (nullish
coalescing); a truthy existing range different from the incoming one
goes through the compatibility check, everything else writes the
incoming range into dependencies. -/
def mergeNpmStep (devDeps : Option (AList String)) (deps : AList String)
    (nv : String × String) : Except String (AList String) :=
  let existing :=
    match recGet deps nv.1 with
    | some e => some e
    | none =>
      match devDeps with
      | some dd => recGet dd nv.1
      | none => none
  match existing with
  | some e =>
    if e ≠ "" ∧ e ≠ nv.2 then
      let result := areRangesCompatible e nv.2
      if result.compatible then Except.ok (recSet deps nv.1 result.resolved)
      else Except.error (depConflictMsg nv.1 e nv.2)
    else Except.ok (recSet deps nv.1 nv.2)
  | none => Except.ok (recSet deps nv.1 nv.2)

def mergeNpmLoop (devDeps : Option (AList String)) (deps : AList String) :
    List (String × String) → Except String (AList String)
  | [] => Except.ok deps
  | nv :: rest =>
    match mergeNpmStep devDeps deps nv with
    | Except.ok deps2 => mergeNpmLoop devDeps deps2 rest
    | Except.error e => Except.error e

/-- Order on package names modelling a.localeCompare(b) <= 0; embedded
as code-unit order (the claims proved below depend only on lookups and
on the sort being a permutation, not on the collation itself). -/
def nameLe (a b : String) : Bool := decide (a ≤ b)

/-- mergeNpmDependencies on the parsed manifest: ensure the dependencies
section exists, run the merge loop over the additions, then sort both
sections by name for deterministic output. -/
def mergeNpmDependenciesCore (pkg : PackageJson) (newDeps : List (String × String)) :
    Except String PackageJson :=
  let deps0 := pkg.dependencies.getD []
  match mergeNpmLoop pkg.devDependencies deps0 newDeps with
  | Except.error e => Except.error e
  | Except.ok deps1 =>
    Except.ok
      { dependencies := some (jsSortBy (fun a b => nameLe a.1 b.1) deps1)
        devDependencies :=
          match pkg.devDependencies with
          | some dd => some (jsSortBy (fun a b => nameLe a.1 b.1) dd)
          | none => none }

/-- mergeNpmDependencies at the filesystem layer: read the manifest at
packageJsonPath (readFileSync throws if it is absent), merge, and write
the result back; a conflict propagates before the write, leaving the
filesystem untouched. -/
def mergeNpmDependencies (fs : AList PackageJson) (packageJsonPath : String)
    (newDeps : List (String × String)) : Except String Unit × AList PackageJson :=
  match recGet fs packageJsonPath with
  | none => (Except.error ("ENOENT: no such file " ++ packageJsonPath), fs)
  | some pkg =>
    match mergeNpmDependenciesCore pkg newDeps with
    | Except.error e => (Except.error e, fs)
    | Except.ok pkg2 => (Except.ok (), recSet fs packageJsonPath pkg2)

/-! ## The environment-file merger

mergeEnvAdditions parses KEY=value lines from the existing env file,
appends only missing keys under a delimiter comment, and returns before
writing when nothing is missing. -/

def isIdentStart (c : Char) : Bool := c.isAlpha || c = '_'

def isIdentChar (c : Char) : Bool := c.isAlpha || c.isDigit || c = '_'

/-- The key captured by the line regex of mergeEnvAdditions: a leading
identifier ([A-Za-z_][A-Za-z0-9_]*) immediately followed by an equals
sign. -/
def envKeyOfLine (line : String) : Option String :=
  match line.data with
  | [] => none
  | c :: _ =>
    if isIdentStart c then
      match line.data.dropWhile isIdentChar with
      | '=' :: _ => some (String.mk (line.data.takeWhile isIdentChar))
      | _ => none
    else none

/-- The set of keys the existing content defines, one line at a time. -/
def envDefinedKeys (content : String) : List String :=
  (jsSplitChar '\n' content).filterMap envKeyOfLine

/-- The additions whose key the content does not define yet. -/
def envNewVars (content : String) (additions : List String) : List String :=
  additions.filter (fun v => !(envDefinedKeys content).contains v)

/-- Append the delimited section: pad the content to a trailing newline
when needed, then the comment line and one KEY= line per new variable. -/
def envAppendSection (content : String) (newVars : List String) : String :=
  let padded := if content ≠ "" ∧ ¬ jsEndsWith content "\n" then content ++ "\n" else content
  padded ++ "\n# Added by skill\n" ++ String.join (newVars.map (fun v => v ++ "=\n"))

/-- mergeEnvAdditions on the file content (a missing file reads as the
empty string). -/
def mergeEnvContent (content : String) (additions : List String) : String :=
  let newVars := envNewVars content additions
  if newVars.isEmpty then content else envAppendSection content newVars

/-- mergeEnvAdditions at the filesystem layer: when every addition is
already defined the source returns before writing (the file, even a
missing one, is untouched); otherwise the appended content is written
back. -/
def mergeEnvAdditions (fs : AList String) (envExamplePath : String)
    (additions : List String) : AList String :=
  let content := (recGet fs envExamplePath).getD ""
  let newVars := envNewVars content additions
  if newVars.isEmpty then fs
  else recSet fs envExamplePath (envAppendSection content newVars)

/-! ## The docker-compose service merger -/

/-- extractHostPort from the structured merger module: the piece before
the first colon when the mapping contains at least one colon (at least
two split pieces), null otherwise. -/
def extractHostPort (portMapping : String) : Option String :=
  let parts := jsSplitChar ':' portMapping
  if 2 ≤ parts.length then some (parts.headD "") else none

/-- A compose service value as the merger sees it: its JavaScript
truthiness, and its ports array when it has one. Objects are truthy; a
falsy primitive value (false, 0, the empty string) has no ports array.
A null service value would crash the source with a TypeError in the
port-collection loop before any merge decision and is outside this
model. Port entries are the strings the source obtains via String(p). -/
structure Service where
  isTruthy : Bool
  ports : Option (List String)
deriving Repr, DecidableEq

structure ComposeFile where
  version : Option String
  services : Option (AList Service)
deriving Repr, DecidableEq

/-- Set.add on the used-ports set (insertion order retained). -/
def setAdd (s : List String) (x : String) : List String :=
  if s.contains x then s else s ++ [x]

/-- Record the truthy host piece of one port mapping, as the
port-collection loop of mergeDockerComposeServices does. -/
def addHostPort (used : List String) (p : String) : List String :=
  match extractHostPort p with
  | some h => if h ≠ "" then setAdd used h else used
  | none => used

/-- Host ports claimed by the existing services. -/
def collectUsedPorts (svcs : AList Service) : List String :=
  svcs.foldl (fun used e =>
    match e.2.ports with
    | some ps => ps.foldl addHostPort used
    | none => used) []

/-- The port-collision error text thrown by mergeDockerComposeServices. -/
def portCollisionMsg (host name : String) : String :=
  "Port collision: host port " ++ host ++ " from service \"" ++ name ++
    "\" is already in use"

/-- Check the ports a new service declares against the used set, adding
each truthy host piece after its check. -/
def checkPortsLoop (name : String) (used : List String) :
    List String → Except String (List String)
  | [] => Except.ok used
  | p :: rest =>
    match extractHostPort p with
    | some h =>
      if h ≠ "" then
        if used.contains h then Except.error (portCollisionMsg h name)
        else checkPortsLoop name (setAdd used h) rest
      else checkPortsLoop name used rest
    | none => checkPortsLoop name used rest

/-- Truthiness of compose.services[name]. -/
def svcTruthy (o : Option Service) : Bool :=
  match o with
  | some s => s.isTruthy
  | none => false

/-- The service-addition loop of mergeDockerComposeServices: skip names
bound to a truthy existing value, otherwise check the declared ports and
add the service. -/
def addServicesLoop (svcs : AList Service) (used : List String) :
    List (String × Service) → Except String (AList Service)
  | [] => Except.ok svcs
  | (name, defn) :: rest =>
    if svcTruthy (recGet svcs name) then addServicesLoop svcs used rest
    else
      match (match defn.ports with
             | some ps => checkPortsLoop name used ps
             | none => Except.ok used) with
      | Except.error e => Except.error e
      | Except.ok used2 => addServicesLoop (recSet svcs name defn) used2 rest

/-- mergeDockerComposeServices on the parsed compose document. -/
def mergeDockerComposeServicesCore (compose : ComposeFile)
    (services : List (String × Service)) : Except String ComposeFile :=
  let svcs0 := compose.services.getD []
  match addServicesLoop svcs0 (collectUsedPorts svcs0) services with
  | Except.error e => Except.error e
  | Except.ok svcs1 => Except.ok { compose with services := some svcs1 }

/-- mergeDockerComposeServices at the filesystem layer: a missing file
starts from the version-3 skeleton; a port collision propagates before
the single final write, leaving the filesystem untouched. Parsing and
serialization (the yaml library) are abstracted by letting the
filesystem map each path to its parsed document. -/
def mergeDockerComposeServices (fs : AList ComposeFile) (composePath : String)
    (services : List (String × Service)) : Except String Unit × AList ComposeFile :=
  let compose :=
    match recGet fs composePath with
    | some c => c
    | none => { version := some "3", services := none }
  match mergeDockerComposeServicesCore compose services with
  | Except.error e => (Except.error e, fs)
  | Except.ok c2 => (Except.ok (), recSet fs composePath c2)

/-! ## The langgraph.json registry merger -/

structure LanggraphJson where
  graphs : Option (AList String)
deriving Repr, DecidableEq

/-- One step of mergeLanggraphJson: a name whose current value is falsy
(absent, or bound to the empty string) receives the new path; anything
else is left alone. -/
def lgMergeStep (g : AList String) (nv : String × String) : AList String :=
  match recGet g nv.1 with
  | some v => if v = "" then recSet g nv.1 nv.2 else g
  | none => recSet g nv.1 nv.2

/-- mergeLanggraphJson on the parsed registry. -/
def mergeLanggraphCore (lg : LanggraphJson) (newGraphs : List (String × String)) :
    LanggraphJson :=
  { graphs := some (newGraphs.foldl lgMergeStep (lg.graphs.getD [])) }

/-- mergeLanggraphJson at the filesystem layer: a missing file starts
from the empty document, and the merged registry is always written
back. -/
def mergeLanggraphJson (fs : AList LanggraphJson) (langgraphPath : String)
    (newGraphs : List (String × String)) : AList LanggraphJson :=
  let lg :=
    match recGet fs langgraphPath with
    | some l => l
    | none => { graphs := none }
  recSet fs langgraphPath (mergeLanggraphCore lg newGraphs)

/-! ## The Python dependency mergers -/

def isPepNameChar (c : Char) : Bool := c.isAlpha || c.isDigit || c = '_' || c = '-'

/-- parsePepPackageName: the leading run of characters in
[a-zA-Z0-9_-], lowercased; when that run is empty (no regex match), the
whole dependency string lowercased. -/
def parsePepPackageName (dep : String) : String :=
  let run := dep.data.takeWhile isPepNameChar
  if run.isEmpty then jsToLower dep else jsToLower (String.mk run)

def isVersionChar (c : Char) : Bool := c.isDigit || c = '.'

/-- The version-extraction regex of resolveDepConflict: at the first
position where a greater-than sign, an optional equals sign, and
optional whitespace are followed by at least one digit-or-dot
character, capture the maximal digit-or-dot run; no such position means
no match. -/
def geVersionSearch : List Char → Option (List Char)
  | [] => none
  | c :: rest =>
    if c = '>' then
      let body :=
        match rest with
        | '=' :: r => r
        | r => r
      let run := (body.dropWhile (fun c => c.isWhitespace)).takeWhile isVersionChar
      if run.isEmpty then geVersionSearch rest else some run
    else geVersionSearch rest

/-- Number(component) then String(n): the canonical decimal rendering
of a digit component; the empty component reads as zero. -/
def numberToString (s : String) : String := toString (digitsVal s.data)

/-- resolveDepConflict from the structured merger module: keep the
existing entry unless both minimum versions parse and the requested one
is strictly higher. Never raises. -/
def resolveDepConflict (existing requested : String) : String :=
  match geVersionSearch existing.data, geVersionSearch requested.data with
  | some ev, some rv =>
    let eParts := (jsSplitChar '.' (String.mk ev)).map numberToString
    let rParts := (jsSplitChar '.' (String.mk rv)).map numberToString
    if cvpGe0 (compareVersionParts eParts rParts) then existing else requested
  | _, _ => existing

/-- The dependency-merge core of mergePyprojectDependencies, between the
regex extraction of the [project] dependencies block and its textual
re-serialization (which live outside this model): build a map keyed by
package name from the existing entries, merge the new entries through
resolveDepConflict, and sort the merged values by package name. -/
def mergePyprojectDependenciesCore (existingDeps newDeps : List String) : List String :=
  let depMap := existingDeps.foldl (fun m dep => recSet m (parsePepPackageName dep) dep) []
  let depMap2 := newDeps.foldl (fun m dep =>
    let name := parsePepPackageName dep
    match recGet m name with
    | some existing =>
      if existing ≠ "" ∧ existing ≠ dep then recSet m name (resolveDepConflict existing dep)
      else if existing = "" then recSet m name dep
      else m
    | none => recSet m name dep) depMap
  jsSortBy (fun a b => nameLe (parsePepPackageName a) (parsePepPackageName b))
    (depMap2.map (fun e => e.2))

/-- mergeRequirementsTxt on the file content (a missing file reads as
the empty string): collect the package names of the noncomment nonblank
lines, drop every addition whose name is already present, and append
the remainder under the delimiter comment; with nothing to add the
content is returned unchanged (the source returns before writing). -/
def reqLineName (line : String) : Option String :=
  let t := jsTrim line
  if t ≠ "" ∧ ¬ jsStartsWith t "#" then some (parsePepPackageName t) else none

/-- The package names of the noncomment nonblank lines of a
requirements file. -/
def reqFileNames (content : String) : List String :=
  (jsSplitChar '\n' content).filterMap reqLineName

def mergeRequirementsTxtContent (content : String) (newDeps : List String) : String :=
  let existingNames := reqFileNames content
  let toAdd := newDeps.filter (fun dep => !existingNames.contains (parsePepPackageName dep))
  if toAdd.isEmpty then content
  else
    let padded := if content ≠ "" ∧ ¬ jsEndsWith content "\n" then content ++ "\n" else content
    padded ++ "\n# Added by skill\n" ++ String.join (toAdd.map (fun dep => dep ++ "\n"))

/-! ## The migration runner

run-migrations.ts discovers version-named directories, selects those
strictly above the from version and at most the to version, sorts them
ascending, runs each, and aggregates the results into a JSON report and
an exit status. -/

structure DirEnt where
  name : String
  isDirectory : Bool
deriving Repr, DecidableEq

/-- The version-directory pattern of run-migrations.ts: digits, dot,
digits, dot, digits, anchored at both ends (equivalently, exactly three
dot-separated nonempty digit groups). -/
def isVersionName (s : String) : Bool :=
  match jsSplitChar '.' s with
  | [a, b, c] => isDigitString a && isDigitString b && isDigitString c
  | _ => false

/-- Modelled from the spec: compareSemver is imported by
run-migrations.ts from the skills-engine state module, whose source is
not among the provided files. Section 4.1 of the specification fixes
its contract: numeric comparison component by component of dotted
semantic-version strings, missing components defaulting to zero,
returning negative, zero, or positive for less, equal, or greater. -/
def compareSemver (a b : String) : Int :=
  cmpPaddedNats ((jsSplitChar '.' a).map componentVal) ((jsSplitChar '.' b).map componentVal)

structure MigrationResult where
  version : String
  success : Bool
  error : Option String
deriving Repr, DecidableEq

structure MigrationRunOutput where
  migrationsRun : Nat
  results : List MigrationResult
  exitCode : Nat
deriving Repr, DecidableEq

/-- The migration selection of run-migrations.ts: version-named
directories v with from < v and v <= to, sorted ascending by
compareSemver. -/
def migrationVersions (entries : List DirEnt) (fromVersion toVersion : String) :
    List String :=
  jsSortBy (fun a b => decide (compareSemver a b ≤ 0))
    (((entries.filter (fun e => e.isDirectory && isVersionName e.name)).map
        (fun e => e.name)).filter
      (fun v => decide (0 < compareSemver v fromVersion) &&
        decide (compareSemver v toVersion ≤ 0)))

/-- run-migrations.ts after argument validation. Running one migration
as a subprocess under the 120 second timeout (including the
missing-index fast failure) is abstracted by the outcome oracle giving
the success flag and optional error message per version; discovery
filtering, range selection, ordering, aggregation, and the exit status
are the modelled logic. -/
def runMigrations (migrationsDirExists : Bool) (entries : List DirEnt)
    (fromVersion toVersion : String) (outcome : String → Bool × Option String) :
    MigrationRunOutput :=
  if ¬ migrationsDirExists then { migrationsRun := 0, results := [], exitCode := 0 }
  else
    let versions := migrationVersions entries fromVersion toVersion
    let results := versions.map (fun v =>
      { version := v, success := (outcome v).1, error := (outcome v).2 })
    { migrationsRun := results.length
      results := results
      exitCode := if results.any (fun r => !r.success) then 1 else 0 }

/-! ## Lemmas about splitting, and the claims C8 and C9 -/

theorem jsSplitChar_headD (sep : Char) (s : String) :
    (jsSplitChar sep s).headD "" =
      String.mk (s.data.takeWhile (fun c => !(c == sep))) := by
  have hh := splitCharAux_head sep s.data []
  cases haux : splitCharAux sep s.data [] with
  | nil => exact absurd haux (splitCharAux_ne_nil sep s.data [])
  | cons a l =>
    rw [haux] at hh
    simp only [List.head?_cons, Option.some_inj, List.reverse_nil, List.nil_append] at hh
    simp only [jsSplitChar, String.toList, haux, List.map_cons, List.headD_cons]
    rw [hh]

theorem jsSplitChar_two_iff (sep : Char) (s : String) :
    2 ≤ (jsSplitChar sep s).length ↔ sep ∈ s.data := by
  simp only [jsSplitChar, List.length_map]
  exact splitCharAux_length sep s.data []

/-- Whether a port-mapping string contains a colon. -/
def hasColon (s : String) : Bool := s.data.contains ':'

/-- The piece of a string before its first colon. -/
def beforeFirstColon (s : String) : String :=
  String.mk (s.data.takeWhile (fun c => !(c == ':')))

theorem hasColon_iff (s : String) : hasColon s = true ↔ ':' ∈ s.data := by
  simp [hasColon]

/-- extractHostPort in closed form: the piece before the first colon
when the string has one, null otherwise. -/
theorem extractHostPort_eq (s : String) :
    extractHostPort s = if hasColon s then some (beforeFirstColon s) else none := by
  by_cases h : hasColon s = true
  · have hmem : ':' ∈ s.data := (hasColon_iff s).mp h
    have hlen : 2 ≤ (jsSplitChar ':' s).length := (jsSplitChar_two_iff ':' s).mpr hmem
    simp only [extractHostPort, if_pos hlen, if_pos h, jsSplitChar_headD, beforeFirstColon]
  · have hb : hasColon s = false := by
      cases hc : hasColon s
      · rfl
      · exact absurd hc h
    have hmem : ':' ∉ s.data := fun hc => h ((hasColon_iff s).mpr hc)
    have hlen : ¬ 2 ≤ (jsSplitChar ':' s).length := fun hc =>
      hmem ((jsSplitChar_two_iff ':' s).mp hc)
    simp only [extractHostPort, if_neg hlen, hb, Bool.false_eq_true, if_false]

theorem takeWhile_append_stop {p : Char → Bool} (l1 : List Char) (x : Char)
    (l2 : List Char) (h1 : ∀ c ∈ l1, p c = true) (hx : p x = false) :
    (l1 ++ x :: l2).takeWhile p = l1 := by
  induction l1 with
  | nil => simp [List.takeWhile_cons, hx]
  | cons c cs ih =>
    have hc : p c = true := h1 c (List.mem_cons_self _ _)
    simp only [List.cons_append, List.takeWhile_cons, hc, if_pos]
    rw [ih (fun d hd => h1 d (List.mem_cons_of_mem _ hd))]

/-- C9: the host-port extraction returns the piece before the first
colon when the port mapping contains at least one colon and null
otherwise; hence on an IP:hostPort:containerPort mapping the collision
check compares the bind-IP piece, and colon-free mappings pass the
port-check loop of the service merger untouched (they are never
collision-checked and never claim a port). -/
theorem c9_extract_host_port :
    (∀ s : String, extractHostPort s = if hasColon s then some (beforeFirstColon s) else none) ∧
    (∀ ip hostPort containerPort : String, hasColon ip = false →
      extractHostPort (ip ++ ":" ++ hostPort ++ ":" ++ containerPort) = some ip) ∧
    (∀ name used ps, (∀ p ∈ ps, hasColon p = false) →
      checkPortsLoop name used ps = Except.ok used) := by
  refine ⟨extractHostPort_eq, ?_, ?_⟩
  · intro ip hostPort containerPort hip
    have hipmem : ':' ∉ ip.data := fun hc => by
      rw [(hasColon_iff ip).mpr hc] at hip
      exact Bool.noConfusion hip
    have hdata : (ip ++ ":" ++ hostPort ++ ":" ++ containerPort).data =
        ip.data ++ ':' :: (hostPort.data ++ ':' :: containerPort.data) := by
      simp [String.data_append]
    have hmem : ':' ∈ (ip ++ ":" ++ hostPort ++ ":" ++ containerPort).data := by
      rw [hdata]
      exact List.mem_append.mpr (Or.inr (List.mem_cons_self _ _))
    rw [extractHostPort_eq, if_pos ((hasColon_iff _).mpr hmem)]
    have htake : (ip ++ ":" ++ hostPort ++ ":" ++ containerPort).data.takeWhile
        (fun c => !(c == ':')) = ip.data := by
      rw [hdata]
      apply takeWhile_append_stop
      · intro c hc
        have : ¬ c = ':' := fun hcc => hipmem (hcc ▸ hc)
        simp [this]
      · simp
    simp only [beforeFirstColon, htake]
  · intro name used ps hps
    induction ps with
    | nil => rfl
    | cons p rest ih =>
      have hp : hasColon p = false := hps p (List.mem_cons_self _ _)
      have hex : extractHostPort p = none := by
        rw [extractHostPort_eq, hp]
        simp
      simp only [checkPortsLoop, hex]
      exact ih (fun q hq => hps q (List.mem_cons_of_mem _ hq))

/-- Witness for C9 at concrete inputs. -/
theorem c9_extract_host_port_witness :
    extractHostPort ("127.0.0.1" ++ ":" ++ "8000" ++ ":" ++ "80") = some "127.0.0.1" ∧
    checkPortsLoop "api" ["8000"] ["8000"] = Except.ok ["8000"] :=
  ⟨c9_extract_host_port.2.1 "127.0.0.1" "8000" "80" (by decide),
   c9_extract_host_port.2.2 "api" ["8000"] ["8000"] (by decide)⟩

/-- C8: the version-part comparator orders component lists of dotted
version strings numerically per component (cmpPaddedNats is the
independent specification: zero-padded, componentwise numeric order),
never lexically; missing components read as zero, so "1.10" compares
above "1.9" and "1.2" compares equal to "1.2.0". -/
theorem c8_compare_version_parts :
    (∀ v w : String,
      (∀ s ∈ jsSplitChar '.' v, isDigitString s = true) →
      (∀ s ∈ jsSplitChar '.' w, isDigitString s = true) →
      ∃ r : Int, compareVersionParts (jsSplitChar '.' v) (jsSplitChar '.' w) = some r ∧
        ((r < 0 ↔ cmpPaddedNats (natsOf (jsSplitChar '.' v)) (natsOf (jsSplitChar '.' w)) = -1) ∧
         (r = 0 ↔ cmpPaddedNats (natsOf (jsSplitChar '.' v)) (natsOf (jsSplitChar '.' w)) = 0) ∧
         (0 < r ↔ cmpPaddedNats (natsOf (jsSplitChar '.' v)) (natsOf (jsSplitChar '.' w)) = 1))) ∧
    compareVersionParts (jsSplitChar '.' "1.10") (jsSplitChar '.' "1.9") = some 1 ∧
    compareVersionParts (jsSplitChar '.' "1.2") (jsSplitChar '.' "1.2.0") = some 0 := by
  refine ⟨?_, by decide, by decide⟩
  intro v w hv hw
  exact compareVersionParts_spec _ _ hv hw

/-- Witness for C8 at concrete inputs. -/
theorem c8_compare_version_parts_witness :
    ∃ r : Int, compareVersionParts (jsSplitChar '.' "1.10") (jsSplitChar '.' "1.9") = some r ∧
      ((r < 0 ↔ cmpPaddedNats (natsOf (jsSplitChar '.' "1.10")) (natsOf (jsSplitChar '.' "1.9")) = -1) ∧
       (r = 0 ↔ cmpPaddedNats (natsOf (jsSplitChar '.' "1.10")) (natsOf (jsSplitChar '.' "1.9")) = 0) ∧
       (0 < r ↔ cmpPaddedNats (natsOf (jsSplitChar '.' "1.10")) (natsOf (jsSplitChar '.' "1.9")) = 1)) :=
  c8_compare_version_parts.1 "1.10" "1.9" (by decide) (by decide)

/-! ## Claim C6: the environment-file merger -/

theorem contains_iff_mem (l : List String) (x : String) :
    l.contains x = true ↔ x ∈ l := by
  simp [List.contains]

theorem mem_envNewVars (content : String) (additions : List String) (v : String) :
    v ∈ envNewVars content additions ↔
      v ∈ additions ∧ v ∉ envDefinedKeys content := by
  simp only [envNewVars, List.mem_filter, Bool.not_eq_true']
  constructor
  · intro ⟨h1, h2⟩
    refine ⟨h1, fun hm => ?_⟩
    rw [(contains_iff_mem _ _).mpr hm] at h2
    exact Bool.noConfusion h2
  · intro ⟨h1, h2⟩
    refine ⟨h1, ?_⟩
    cases hc : (envDefinedKeys content).contains v
    · rfl
    · exact absurd ((contains_iff_mem _ _).mp hc) h2

/-- C6: keys already defined in the env file stay untouched and are not
re-added; only absent keys are appended; the whole existing content is
a prefix of the merge result (so every existing line, value, comment,
and their order survive); and the concrete API_KEY example leaves both
the content and the filesystem byte-for-byte unchanged (the source
returns before any write). -/
theorem c6_env_merge :
    (∀ content additions,
      (∀ k ∈ envDefinedKeys content, k ∉ envNewVars content additions) ∧
      (∀ v ∈ envNewVars content additions, v ∈ additions ∧ v ∉ envDefinedKeys content) ∧
      (∃ tail, mergeEnvContent content additions = content ++ tail) ∧
      (envNewVars content additions = [] → mergeEnvContent content additions = content)) ∧
    mergeEnvContent "API_KEY=secret" ["API_KEY"] = "API_KEY=secret" ∧
    mergeEnvAdditions [(".env.example", "API_KEY=secret")] ".env.example" ["API_KEY"] =
      [(".env.example", "API_KEY=secret")] := by
  refine ⟨?_, by decide, by decide⟩
  intro content additions
  refine ⟨?_, ?_, ?_, ?_⟩
  · intro k hk hkin
    exact ((mem_envNewVars content additions k).mp hkin).2 hk
  · intro v hv
    exact (mem_envNewVars content additions v).mp hv
  · by_cases h : (envNewVars content additions).isEmpty = true
    · refine ⟨"", ?_⟩
      simp only [mergeEnvContent, h, if_pos]
      exact (String.append_empty content).symm
    · simp only [mergeEnvContent, h, Bool.false_eq_true, if_false, envAppendSection]
      by_cases hpad : content ≠ "" ∧ ¬ jsEndsWith content "\n" = true
      · rw [if_pos hpad]
        exact ⟨"\n" ++ ("\n# Added by skill\n" ++
          String.join ((envNewVars content additions).map (fun v => v ++ "=\n"))),
          by rw [← String.append_assoc, ← String.append_assoc]⟩
      · rw [if_neg hpad]
        exact ⟨"\n# Added by skill\n" ++
          String.join ((envNewVars content additions).map (fun v => v ++ "=\n")),
          by rw [← String.append_assoc]⟩
  · intro h
    simp only [mergeEnvContent, h, List.isEmpty_nil, if_pos]

/-- Witness for C6 at a concrete env file and addition list. -/
theorem c6_env_merge_witness :
    "API_KEY" ∉ envNewVars "API_KEY=secret" ["API_KEY", "NEW_KEY"] ∧
    (∃ tail, mergeEnvContent "API_KEY=secret" ["API_KEY", "NEW_KEY"] =
      "API_KEY=secret" ++ tail) :=
  ⟨(c6_env_merge.1 "API_KEY=secret" ["API_KEY", "NEW_KEY"]).1 "API_KEY" (by decide),
   (c6_env_merge.1 "API_KEY=secret" ["API_KEY", "NEW_KEY"]).2.2.1⟩

/-! ## Claim C5: first writer wins in the compose and registry mergers -/

theorem lgFold_preserves (gs : List (String × String)) : ∀ (g : AList String) (name v : String),
    recGet g name = some v → v ≠ "" →
    recGet (gs.foldl lgMergeStep g) name = some v := by
  induction gs with
  | nil =>
    intro g name v h _
    simpa using h
  | cons nv rest ih =>
    intro g name v h hne
    simp only [List.foldl_cons]
    apply ih _ name v _ hne
    unfold lgMergeStep
    by_cases heq : nv.1 = name
    · rw [heq, h]
      show recGet (if v = "" then recSet g name nv.2 else g) name = some v
      rw [if_neg hne]
      exact h
    · cases hg : recGet g nv.1 with
      | none =>
        show recGet (recSet g nv.1 nv.2) name = some v
        rw [recGet_recSet_ne g nv.1 name nv.2 heq]
        exact h
      | some w =>
        show recGet (if w = "" then recSet g nv.1 nv.2 else g) name = some v
        by_cases hw : w = ""
        · rw [if_pos hw, recGet_recSet_ne g nv.1 name nv.2 heq]
          exact h
        · rw [if_neg hw]
          exact h

theorem addServicesLoop_preserves (adds : List (String × Service)) :
    ∀ (svcs : AList Service) (used : List String) (svcs2 : AList Service) (name : String)
      (s : Service),
    addServicesLoop svcs used adds = Except.ok svcs2 →
    recGet svcs name = some s → s.isTruthy = true →
    recGet svcs2 name = some s := by
  induction adds with
  | nil =>
    intro svcs used svcs2 name s h hg _
    simp only [addServicesLoop, Except.ok.injEq] at h
    rw [← h]
    exact hg
  | cons nd rest ih =>
    intro svcs used svcs2 name s h hg hs
    obtain ⟨n0, d0⟩ := nd
    simp only [addServicesLoop] at h
    by_cases hsk : svcTruthy (recGet svcs n0) = true
    · rw [if_pos hsk] at h
      exact ih svcs used svcs2 name s h hg hs
    · rw [if_neg hsk] at h
      have hn0 : n0 ≠ name := by
        intro heq
        apply hsk
        rw [heq, hg]
        exact hs
      cases hchk : (match d0.ports with
                    | some ps => checkPortsLoop n0 used ps
                    | none => Except.ok used) with
      | error e =>
        rw [hchk] at h
        exact Except.noConfusion h
      | ok used2 =>
        rw [hchk] at h
        apply ih _ used2 svcs2 name s h _ hs
        rw [recGet_recSet_ne svcs n0 name d0 hn0]
        exact hg

/-- Counterexample to C5 as stated: the registry merger overwrites an
existing entry whose value is falsy. Merging the addition main ->
new:graph into a langgraph.json whose graphs section already binds main
(to the empty path) replaces that existing value instead of leaving it
unchanged. -/
theorem c5_counterexample :
    mergeLanggraphJson [("langgraph.json", ⟨some [("main", "")]⟩)] "langgraph.json"
        [("main", "new:graph")] =
      [("langgraph.json", ⟨some [("main", "new:graph")]⟩)] ∧
    ("" : String) ≠ "new:graph" := by decide

/-- C5 (amended): for every service name bound to a truthy value in the
compose document and every graph name bound to a nonempty path in the
registry, a merge leaves the existing entry value unchanged (first
writer wins); a name present with a falsy value (empty path string,
falsy service value) is instead overwritten by the addition. -/
theorem c5_first_writer_wins :
    (∀ (lg : LanggraphJson) (newGraphs : List (String × String)) (name v : String),
      recGet (lg.graphs.getD []) name = some v → v ≠ "" →
      recGet ((mergeLanggraphCore lg newGraphs).graphs.getD []) name = some v) ∧
    (∀ (compose : ComposeFile) (services : List (String × Service)) (c2 : ComposeFile)
      (name : String) (s : Service),
      mergeDockerComposeServicesCore compose services = Except.ok c2 →
      recGet (compose.services.getD []) name = some s → s.isTruthy = true →
      recGet (c2.services.getD []) name = some s) := by
  constructor
  · intro lg newGraphs name v h hne
    simp only [mergeLanggraphCore, Option.getD_some]
    exact lgFold_preserves newGraphs _ name v h hne
  · intro compose services c2 name s hok hg hs
    simp only [mergeDockerComposeServicesCore] at hok
    cases hrun : addServicesLoop (compose.services.getD [])
        (collectUsedPorts (compose.services.getD [])) services with
    | error e =>
      rw [hrun] at hok
      exact Except.noConfusion hok
    | ok svcs1 =>
      rw [hrun] at hok
      simp only [Except.ok.injEq] at hok
      rw [← hok]
      simp only [Option.getD_some]
      exact addServicesLoop_preserves services _ _ svcs1 name s hrun hg hs

/-- Witness for C5 (amended) at concrete inputs. -/
theorem c5_first_writer_wins_witness :
    recGet ((mergeLanggraphCore ⟨some [("main", "orig:graph")]⟩
        [("main", "new:graph")]).graphs.getD []) "main" = some "orig:graph" ∧
    recGet ((ComposeFile.mk (some "3")
        (some [("web", Service.mk true (some ["8000:8000"]))])).services.getD [])
      "web" = some (Service.mk true (some ["8000:8000"])) :=
  ⟨c5_first_writer_wins.1 ⟨some [("main", "orig:graph")]⟩ [("main", "new:graph")]
      "main" "orig:graph" (by decide) (by decide),
   c5_first_writer_wins.2
      (ComposeFile.mk (some "3") (some [("web", Service.mk true (some ["8000:8000"]))]))
      [("web", Service.mk false none)]
      (ComposeFile.mk (some "3") (some [("web", Service.mk true (some ["8000:8000"]))]))
      "web" (Service.mk true (some ["8000:8000"])) (by decide) (by decide) (by decide)⟩

/-! ## Claim C2: conflict handling in the Python dependency mergers -/

/-- Counterexample to C2 as stated: langgraph appears on both sides
with the plain minimum ranges >=0.2.0 and >=0.3.0 (neither two
compatible caret ranges nor two compatible tilde ranges), so the claim
requires a DependencyConflictError; instead the pyproject merger
silently resolves to the higher range and the requirements merger
silently keeps the existing line. Both embedded functions are total,
mirroring the absence of any throw in the Python-side sources. -/
theorem c2_counterexample :
    mergePyprojectDependenciesCore ["langgraph>=0.2.0"] ["langgraph>=0.3.0"] =
      ["langgraph>=0.3.0"] ∧
    mergeRequirementsTxtContent "langgraph>=0.2.0\n" ["langgraph>=0.3.0"] =
      "langgraph>=0.2.0\n" := by decide

/-- C2 (amended): the Python mergers never raise a dependency
conflict. resolveDepConflict always silently picks one side;
a pyproject entry clashing by package name with a truthy, different
existing entry is resolved through resolveDepConflict (higher minimum
version, existing side on ties or parse failure); and the requirements
merger returns the content unchanged whenever every addition's package
name is already present, silently keeping the existing lines. -/
theorem c2_python_no_conflict_error :
    (∀ e r : String, resolveDepConflict e r = e ∨ resolveDepConflict e r = r) ∧
    (∀ e d : String, parsePepPackageName e = parsePepPackageName d → e ≠ "" → e ≠ d →
      mergePyprojectDependenciesCore [e] [d] = [resolveDepConflict e d]) ∧
    (∀ content newDeps, (∀ dep ∈ newDeps, parsePepPackageName dep ∈ reqFileNames content) →
      mergeRequirementsTxtContent content newDeps = content) := by
  refine ⟨?_, ?_, ?_⟩
  · intro e r
    unfold resolveDepConflict
    cases h1 : geVersionSearch e.data with
    | none => simp
    | some ev =>
      cases h2 : geVersionSearch r.data with
      | none => simp
      | some rv =>
        by_cases hc : cvpGe0 (compareVersionParts
            ((jsSplitChar '.' (String.mk ev)).map numberToString)
            ((jsSplitChar '.' (String.mk rv)).map numberToString)) = true
        · simp [hc]
        · simp [hc]
  · intro e d hname hne hned
    simp only [mergePyprojectDependenciesCore, List.foldl_cons, List.foldl_nil, List.map_cons]
    rw [hname]
    have hget : recGet (recSet [] (parsePepPackageName d) e) (parsePepPackageName d) = some e :=
      recGet_recSet_self [] (parsePepPackageName d) e
    rw [hget]
    simp only [hne, hned, ne_eq, not_false_iff, and_self, if_pos]
    have hset : recSet (recSet ([] : AList String) (parsePepPackageName d) e)
        (parsePepPackageName d) (resolveDepConflict e d) =
        [(parsePepPackageName d, resolveDepConflict e d)] := by
      simp [recSet]
    rw [hset]
    rfl
  · intro content newDeps h
    simp only [mergeRequirementsTxtContent]
    have hempty : newDeps.filter
        (fun dep => !(reqFileNames content).contains (parsePepPackageName dep)) = [] := by
      rw [List.filter_eq_nil_iff]
      intro dep hdep
      have hmem := h dep hdep
      rw [(contains_iff_mem _ _).mpr hmem]
      decide
    rw [hempty]
    rfl

/-- Witness for C2 (amended) at concrete inputs. -/
theorem c2_python_no_conflict_error_witness :
    (resolveDepConflict "langgraph>=0.2.0" "langgraph>=0.3.0" = "langgraph>=0.2.0" ∨
     resolveDepConflict "langgraph>=0.2.0" "langgraph>=0.3.0" = "langgraph>=0.3.0") ∧
    mergePyprojectDependenciesCore ["langgraph>=0.2.0"] ["langgraph>=0.3.0"] =
      [resolveDepConflict "langgraph>=0.2.0" "langgraph>=0.3.0"] ∧
    mergeRequirementsTxtContent "langgraph>=0.2.0\n" ["langgraph>=0.3.0"] =
      "langgraph>=0.2.0\n" :=
  ⟨c2_python_no_conflict_error.1 "langgraph>=0.2.0" "langgraph>=0.3.0",
   c2_python_no_conflict_error.2.1 "langgraph>=0.2.0" "langgraph>=0.3.0"
     (by decide) (by decide) (by decide),
   c2_python_no_conflict_error.2.2 "langgraph>=0.2.0\n" ["langgraph>=0.3.0"] (by decide)⟩

/-! ## Claim C3: the mergers and file I/O -/

/-- Counterexample to C3 as stated: the exported mergers perform their
own file I/O rather than being pure (document, additions) to text
functions. Run against an empty filesystem, mergeEnvAdditions itself
creates and writes the env file at the given path; and
mergeNpmDependencies fails on the missing manifest because it itself
reads the file from disk (readFileSync throws), even with no additions
to merge. -/
theorem c3_counterexample :
    mergeEnvAdditions [] ".env.example" ["API_KEY"] =
      [(".env.example", "\n# Added by skill\nAPI_KEY=\n")] ∧
    (mergeNpmDependencies [] "package.json" []).1 =
      Except.error ("ENOENT: no such file package.json") := by decide

/-- C3 (amended): each structured merger takes a file path, reads the
document there, and writes the merged document back itself (signature
(path, additions) to void); the merge policy is the pure core, and the
I/O is confined to the single target file: every other path of the
filesystem is untouched, and a typed conflict error (or a missing
manifest) propagates with the filesystem completely unchanged. -/
theorem c3_mergers_touch_only_target :
    (∀ fs path newDeps other, other ≠ path →
      recGet (mergeNpmDependencies fs path newDeps).2 other = recGet fs other) ∧
    (∀ fs path newDeps e, (mergeNpmDependencies fs path newDeps).1 = Except.error e →
      (mergeNpmDependencies fs path newDeps).2 = fs) ∧
    (∀ fs path additions other, other ≠ path →
      recGet (mergeEnvAdditions fs path additions) other = recGet fs other) ∧
    (∀ fs path services other, other ≠ path →
      recGet (mergeDockerComposeServices fs path services).2 other = recGet fs other) ∧
    (∀ fs path services e, (mergeDockerComposeServices fs path services).1 = Except.error e →
      (mergeDockerComposeServices fs path services).2 = fs) ∧
    (∀ fs path newGraphs other, other ≠ path →
      recGet (mergeLanggraphJson fs path newGraphs) other = recGet fs other) := by
  refine ⟨?_, ?_, ?_, ?_, ?_, ?_⟩
  · intro fs path newDeps other hne
    cases h1 : recGet fs path with
    | none =>
      have hre : mergeNpmDependencies fs path newDeps =
          (Except.error ("ENOENT: no such file " ++ path), fs) := by
        simp only [mergeNpmDependencies, h1]
      rw [hre]
    | some pkg =>
      cases h2 : mergeNpmDependenciesCore pkg newDeps with
      | error e =>
        have hre : mergeNpmDependencies fs path newDeps = (Except.error e, fs) := by
          simp only [mergeNpmDependencies, h1, h2]
        rw [hre]
      | ok pkg2 =>
        have hre : mergeNpmDependencies fs path newDeps =
            (Except.ok (), recSet fs path pkg2) := by
          simp only [mergeNpmDependencies, h1, h2]
        rw [hre]
        exact recGet_recSet_ne fs path other pkg2 (fun hh => hne hh.symm)
  · intro fs path newDeps e herr
    cases h1 : recGet fs path with
    | none =>
      have hre : mergeNpmDependencies fs path newDeps =
          (Except.error ("ENOENT: no such file " ++ path), fs) := by
        simp only [mergeNpmDependencies, h1]
      rw [hre]
    | some pkg =>
      cases h2 : mergeNpmDependenciesCore pkg newDeps with
      | error e2 =>
        have hre : mergeNpmDependencies fs path newDeps = (Except.error e2, fs) := by
          simp only [mergeNpmDependencies, h1, h2]
        rw [hre]
      | ok pkg2 =>
        have hre : mergeNpmDependencies fs path newDeps =
            (Except.ok (), recSet fs path pkg2) := by
          simp only [mergeNpmDependencies, h1, h2]
        rw [hre] at herr
        exact Except.noConfusion herr
  · intro fs path additions other hne
    simp only [mergeEnvAdditions]
    by_cases h : (envNewVars ((recGet fs path).getD "") additions).isEmpty = true
    · rw [if_pos h]
    · rw [if_neg h]
      exact recGet_recSet_ne fs path other _ (fun hh => hne hh.symm)
  · intro fs path services other hne
    cases h2 : mergeDockerComposeServicesCore
        (match recGet fs path with
         | some c => c
         | none => { version := some "3", services := none }) services with
    | error e =>
      have hre : mergeDockerComposeServices fs path services = (Except.error e, fs) := by
        simp only [mergeDockerComposeServices, h2]
      rw [hre]
    | ok c2 =>
      have hre : mergeDockerComposeServices fs path services =
          (Except.ok (), recSet fs path c2) := by
        simp only [mergeDockerComposeServices, h2]
      rw [hre]
      exact recGet_recSet_ne fs path other c2 (fun hh => hne hh.symm)
  · intro fs path services e herr
    cases h2 : mergeDockerComposeServicesCore
        (match recGet fs path with
         | some c => c
         | none => { version := some "3", services := none }) services with
    | error e2 =>
      have hre : mergeDockerComposeServices fs path services = (Except.error e2, fs) := by
        simp only [mergeDockerComposeServices, h2]
      rw [hre]
    | ok c2 =>
      have hre : mergeDockerComposeServices fs path services =
          (Except.ok (), recSet fs path c2) := by
        simp only [mergeDockerComposeServices, h2]
      rw [hre] at herr
      exact Except.noConfusion herr
  · intro fs path newGraphs other hne
    simp only [mergeLanggraphJson]
    exact recGet_recSet_ne fs path other _ (fun hh => hne hh.symm)

/-- Witness for C3 (amended) at concrete inputs. -/
theorem c3_mergers_touch_only_target_witness :
    recGet (mergeEnvAdditions [("a.env", "X=1")] "a.env" ["Y"]) "other" =
      recGet [("a.env", "X=1")] "other" ∧
    (mergeNpmDependencies [] "package.json" []).2 = [] ∧
    recGet (mergeLanggraphJson [] "langgraph.json" [("main", "graph:graph")]) "other" =
      recGet ([] : AList LanggraphJson) "other" :=
  ⟨c3_mergers_touch_only_target.2.2.1 [("a.env", "X=1")] "a.env" ["Y"] "other" (by decide),
   c3_mergers_touch_only_target.2.1 [] "package.json" []
     ("ENOENT: no such file package.json") (by decide),
   c3_mergers_touch_only_target.2.2.2.2.2 [] "langgraph.json" [("main", "graph:graph")]
     "other" (by decide)⟩

/-! ## Claim C4: port collisions block the compose merge -/

theorem setAdd_mem_of_mem (s : List String) (x y : String) (h : x ∈ s) :
    x ∈ setAdd s y := by
  unfold setAdd
  by_cases hc : s.contains y = true
  · rw [if_pos hc]
    exact h
  · rw [if_neg hc]
    exact List.mem_append.mpr (Or.inl h)

theorem checkPortsLoop_mono (name : String) : ∀ (ps : List String) (used used2 : List String),
    checkPortsLoop name used ps = Except.ok used2 → ∀ x ∈ used, x ∈ used2 := by
  intro ps
  induction ps with
  | nil =>
    intro used used2 h x hx
    simp only [checkPortsLoop, Except.ok.injEq] at h
    rw [← h]
    exact hx
  | cons p rest ih =>
    intro used used2 h x hx
    simp only [checkPortsLoop] at h
    cases hep : extractHostPort p with
    | none =>
      simp only [hep] at h
      exact ih used used2 h x hx
    | some hp =>
      simp only [hep] at h
      by_cases hne : hp ≠ ""
      · rw [if_pos hne] at h
        by_cases hct : used.contains hp = true
        · rw [if_pos hct] at h
          exact Except.noConfusion h
        · rw [if_neg hct] at h
          exact ih _ used2 h x (setAdd_mem_of_mem used x hp hx)
      · rw [if_neg hne] at h
        exact ih used used2 h x hx

theorem checkPortsLoop_collides (name : String) : ∀ (ps : List String) (used : List String)
    (p hp : String), p ∈ ps → extractHostPort p = some hp → hp ≠ "" → hp ∈ used →
    ∃ e, checkPortsLoop name used ps = Except.error e := by
  intro ps
  induction ps with
  | nil =>
    intro used p hp hmem
    simp at hmem
  | cons q rest ih =>
    intro used p hp hmem hex hne hin
    simp only [checkPortsLoop]
    cases heq : extractHostPort q with
    | none =>
      simp only [heq]
      rcases List.mem_cons.mp hmem with hpq | hmem2
      · rw [hpq] at hex
        rw [hex] at heq
        exact Option.noConfusion heq
      · exact ih used p hp hmem2 hex hne hin
    | some hq =>
      simp only [heq]
      by_cases hqne : hq ≠ ""
      · rw [if_pos hqne]
        by_cases hct : used.contains hq = true
        · rw [if_pos hct]
          exact ⟨portCollisionMsg hq name, rfl⟩
        · rw [if_neg hct]
          rcases List.mem_cons.mp hmem with hpq | hmem2
          · exfalso
            rw [hpq] at hex
            rw [hex] at heq
            have hh : hq = hp := Option.some_inj.mp heq.symm
            apply hct
            rw [hh]
            exact (contains_iff_mem used hp).mpr hin
          · exact ih (setAdd used hq) p hp hmem2 hex hne (setAdd_mem_of_mem used hp hq hin)
      · rw [if_neg hqne]
        rcases List.mem_cons.mp hmem with hpq | hmem2
        · exfalso
          rw [hpq] at hex
          rw [hex] at heq
          have hh : hq = hp := Option.some_inj.mp heq.symm
          apply hne
          rw [← hh]
          exact not_ne_iff.mp hqne
        · exact ih used p hp hmem2 hex hne hin

theorem checkPortsLoop_error_shape (name : String) : ∀ (ps : List String)
    (used : List String) (e : String), checkPortsLoop name used ps = Except.error e →
    ∃ hp, e = portCollisionMsg hp name := by
  intro ps
  induction ps with
  | nil =>
    intro used e h
    exact Except.noConfusion h
  | cons q rest ih =>
    intro used e h
    simp only [checkPortsLoop] at h
    cases heq : extractHostPort q with
    | none =>
      simp only [heq] at h
      exact ih used e h
    | some hq =>
      simp only [heq] at h
      by_cases hqne : hq ≠ ""
      · rw [if_pos hqne] at h
        by_cases hct : used.contains hq = true
        · rw [if_pos hct] at h
          exact ⟨hq, (Except.error.injEq _ _).mp h.symm⟩
        · rw [if_neg hct] at h
          exact ih _ e h
      · rw [if_neg hqne] at h
        exact ih used e h

theorem addServicesLoop_error_shape : ∀ (adds : List (String × Service))
    (svcs : AList Service) (used : List String) (e : String),
    addServicesLoop svcs used adds = Except.error e →
    ∃ hp n, e = portCollisionMsg hp n := by
  intro adds
  induction adds with
  | nil =>
    intro svcs used e h
    exact Except.noConfusion h
  | cons nd rest ih =>
    intro svcs used e h
    obtain ⟨n0, d0⟩ := nd
    simp only [addServicesLoop] at h
    by_cases hsk : svcTruthy (recGet svcs n0) = true
    · rw [if_pos hsk] at h
      exact ih svcs used e h
    · rw [if_neg hsk] at h
      cases hps : d0.ports with
      | none =>
        simp only [hps] at h
        exact ih _ used e h
      | some ps0 =>
        simp only [hps] at h
        cases hchk : checkPortsLoop n0 used ps0 with
        | error e2 =>
          simp only [hchk] at h
          obtain ⟨hp, hshape⟩ := checkPortsLoop_error_shape n0 ps0 used e2 hchk
          exact ⟨hp, n0, by rw [← (Except.error.injEq _ _).mp h]; exact hshape⟩
        | ok used2 =>
          simp only [hchk] at h
          exact ih _ used2 e h

theorem addServicesLoop_collides : ∀ (adds : List (String × Service))
    (svcs : AList Service) (used : List String) (name : String) (defn : Service)
    (p hp : String),
    (name, defn) ∈ adds →
    (adds.map (fun e => e.1)).Nodup →
    svcTruthy (recGet svcs name) = false →
    p ∈ defn.ports.getD [] →
    extractHostPort p = some hp → hp ≠ "" → hp ∈ used →
    ∃ e, addServicesLoop svcs used adds = Except.error e := by
  intro adds
  induction adds with
  | nil =>
    intro svcs used name defn p hp hmem
    simp at hmem
  | cons nd rest ih =>
    intro svcs used name defn p hp hmem hnd htruthy hports hex hne hin
    obtain ⟨n0, d0⟩ := nd
    simp only [List.map_cons, List.nodup_cons] at hnd
    rcases List.mem_cons.mp hmem with heq | hmem2
    · cases heq
      simp only [addServicesLoop, htruthy, Bool.false_eq_true, if_false]
      cases hps : defn.ports with
      | none =>
        rw [hps] at hports
        simp at hports
      | some ps =>
        rw [hps] at hports
        simp only [Option.getD_some] at hports
        obtain ⟨e, he⟩ := checkPortsLoop_collides name ps used p hp hports hex hne hin
        exact ⟨e, by simp only [hps, he]⟩
    · have hn0ne : n0 ≠ name := by
        intro heq2
        apply hnd.1
        rw [heq2]
        exact List.mem_map_of_mem (fun e => e.1) hmem2
      simp only [addServicesLoop]
      by_cases hsk : svcTruthy (recGet svcs n0) = true
      · rw [if_pos hsk]
        exact ih svcs used name defn p hp hmem2 hnd.2 htruthy hports hex hne hin
      · rw [if_neg hsk]
        have htruthy2 : svcTruthy (recGet (recSet svcs n0 d0) name) = false := by
          rw [recGet_recSet_ne svcs n0 name d0 hn0ne]
          exact htruthy
        cases hps0 : d0.ports with
        | none =>
          obtain ⟨e, he⟩ := ih (recSet svcs n0 d0) used name defn p hp hmem2 hnd.2
            htruthy2 hports hex hne hin
          exact ⟨e, by simp only [hps0, he]⟩
        | some ps0 =>
          cases hchk : checkPortsLoop n0 used ps0 with
          | error e2 =>
            exact ⟨e2, by simp only [hps0, hchk]⟩
          | ok used2 =>
            have hused2 : hp ∈ used2 := checkPortsLoop_mono n0 ps0 used used2 hchk hp hin
            obtain ⟨e, he⟩ := ih (recSet svcs n0 d0) used2 name defn p hp hmem2 hnd.2
              htruthy2 hports hex hne hused2
            exact ⟨e, by simp only [hps0, hchk, he]⟩

/-- C4: a call to the service-manifest merger in which a service being
added (its name not yet present) declares a host port already claimed
by an existing service raises the port-collision error (whose text
names the port and the colliding service) and leaves the compose file,
and the whole filesystem, unchanged: the error propagates before the
single final write. -/
theorem c4_port_collision :
    ∀ (fs : AList ComposeFile) (composePath : String) (compose : ComposeFile)
      (services : List (String × Service)) (name : String) (defn : Service) (p hp : String),
    recGet fs composePath = some compose →
    (name, defn) ∈ services →
    (services.map (fun e => e.1)).Nodup →
    recGet (compose.services.getD []) name = none →
    p ∈ defn.ports.getD [] →
    extractHostPort p = some hp → hp ≠ "" →
    hp ∈ collectUsedPorts (compose.services.getD []) →
    ∃ e h2 n2, (mergeDockerComposeServices fs composePath services).1 =
        Except.error e ∧ e = portCollisionMsg h2 n2 ∧
      (mergeDockerComposeServices fs composePath services).2 = fs := by
  intro fs composePath compose services name defn p hp hfs hmem hnd hnone hports hex hne hin
  have htruthy : svcTruthy (recGet (compose.services.getD []) name) = false := by
    rw [hnone]
    rfl
  obtain ⟨e, he⟩ := addServicesLoop_collides services (compose.services.getD [])
    (collectUsedPorts (compose.services.getD [])) name defn p hp hmem hnd htruthy
    hports hex hne hin
  obtain ⟨h2, n2, hshape⟩ := addServicesLoop_error_shape services _ _ e he
  have hcore : mergeDockerComposeServicesCore compose services = Except.error e := by
    simp only [mergeDockerComposeServicesCore, he]
  refine ⟨e, h2, n2, ?_, hshape, ?_⟩
  · simp only [mergeDockerComposeServices, hfs, hcore]
  · simp only [mergeDockerComposeServices, hfs, hcore]

/-- Witness for C4: an existing service claiming host port 8000 and an
added service declaring 8000:80. -/
theorem c4_port_collision_witness :
    ∃ e h2 n2,
      (mergeDockerComposeServices
          [("docker-compose.yml", ComposeFile.mk (some "3")
              (some [("web", Service.mk true (some ["8000:8000"]))]))]
          "docker-compose.yml" [("api", Service.mk true (some ["8000:80"]))]).1 =
        Except.error e ∧ e = portCollisionMsg h2 n2 ∧
      (mergeDockerComposeServices
          [("docker-compose.yml", ComposeFile.mk (some "3")
              (some [("web", Service.mk true (some ["8000:8000"]))]))]
          "docker-compose.yml" [("api", Service.mk true (some ["8000:80"]))]).2 =
        [("docker-compose.yml", ComposeFile.mk (some "3")
            (some [("web", Service.mk true (some ["8000:8000"]))]))] :=
  c4_port_collision
    [("docker-compose.yml", ComposeFile.mk (some "3")
        (some [("web", Service.mk true (some ["8000:8000"]))]))]
    "docker-compose.yml"
    (ComposeFile.mk (some "3") (some [("web", Service.mk true (some ["8000:8000"]))]))
    [("api", Service.mk true (some ["8000:80"]))]
    "api" (Service.mk true (some ["8000:80"])) "8000:80" "8000"
    (by decide) (by decide) (by decide) (by decide) (by decide) (by decide)
    (by decide) (by decide)

/-! ## Claim C10: devDependencies survive the npm merge -/

/-- C10: the npm merger never modifies the value of any devDependencies
entry (the section is only re-sorted by name), and an added package
whose name exists only in devDependencies gets its resolved (or
identical) range written into the dependencies section while the
devDependencies entry is retained, so the package can afterwards appear
in both sections. -/
theorem c10_dev_dependencies_retained :
    (∀ (pkg : PackageJson) (newDeps : List (String × String)) (pkg2 : PackageJson),
      (recKeys (pkg.devDependencies.getD [])).Nodup →
      mergeNpmDependenciesCore pkg newDeps = Except.ok pkg2 →
      ∀ n, recGet (pkg2.devDependencies.getD []) n = recGet (pkg.devDependencies.getD []) n) ∧
    (∀ (pkg : PackageJson) (name version d : String) (pkg2 : PackageJson),
      (recKeys (pkg.dependencies.getD [])).Nodup →
      recGet (pkg.dependencies.getD []) name = none →
      recGet (pkg.devDependencies.getD []) name = some d →
      mergeNpmDependenciesCore pkg [(name, version)] = Except.ok pkg2 →
      recGet (pkg2.dependencies.getD []) name =
        some (if d ≠ "" ∧ d ≠ version then (areRangesCompatible d version).resolved
          else version)) := by
  constructor
  · intro pkg newDeps pkg2 hnd hok n
    cases hloop : mergeNpmLoop pkg.devDependencies (pkg.dependencies.getD []) newDeps with
    | error e =>
      rw [mergeNpmDependenciesCore, hloop] at hok
      exact Except.noConfusion hok
    | ok deps1 =>
      rw [mergeNpmDependenciesCore, hloop] at hok
      simp only [Except.ok.injEq] at hok
      rw [← hok]
      cases hdd : pkg.devDependencies with
      | none => simp [hdd]
      | some dd =>
        rw [hdd] at hnd
        simp only [Option.getD_some] at hnd
        simp only [hdd, Option.getD_some]
        exact (recGet_perm dd (jsSortBy (fun a b => nameLe a.1 b.1) dd)
          (jsSortBy_perm (fun a b => nameLe a.1 b.1) dd).symm hnd n).symm
  · intro pkg name version d pkg2 hnd hdep hdev hok
    cases hdd : pkg.devDependencies with
    | none =>
      rw [hdd] at hdev
      simp only [Option.getD_none, recGet_nil] at hdev
      exact Option.noConfusion hdev
    | some dd =>
      rw [hdd] at hdev
      simp only [Option.getD_some] at hdev
      have hstep : mergeNpmStep pkg.devDependencies (pkg.dependencies.getD [])
          (name, version) =
          (if d ≠ "" ∧ d ≠ version then
            (if (areRangesCompatible d version).compatible then
              Except.ok (recSet (pkg.dependencies.getD []) name
                (areRangesCompatible d version).resolved)
            else Except.error (depConflictMsg name d version))
          else Except.ok (recSet (pkg.dependencies.getD []) name version)) := by
        simp only [mergeNpmStep, hdep, hdd, hdev]
      by_cases hcase : d ≠ "" ∧ d ≠ version
      · rw [if_pos hcase] at hstep
        by_cases hcompat : (areRangesCompatible d version).compatible = true
        · rw [if_pos hcompat] at hstep
          have hloop : mergeNpmLoop pkg.devDependencies (pkg.dependencies.getD [])
              [(name, version)] =
              Except.ok (recSet (pkg.dependencies.getD []) name
                (areRangesCompatible d version).resolved) := by
            simp only [mergeNpmLoop, hstep]
          rw [mergeNpmDependenciesCore, hloop] at hok
          simp only [Except.ok.injEq] at hok
          rw [← hok]
          simp only [Option.getD_some, if_pos hcase]
          have hnd2 : (recKeys (recSet (pkg.dependencies.getD []) name
              (areRangesCompatible d version).resolved)).Nodup :=
            recKeys_recSet_nodup _ _ _ hnd
          rw [← recGet_perm _ _ (jsSortBy_perm (fun a b => nameLe a.1 b.1) _).symm hnd2 name]
          exact recGet_recSet_self _ _ _
        · rw [if_neg hcompat] at hstep
          have hloop : mergeNpmLoop pkg.devDependencies (pkg.dependencies.getD [])
              [(name, version)] = Except.error (depConflictMsg name d version) := by
            simp only [mergeNpmLoop, hstep]
          rw [mergeNpmDependenciesCore, hloop] at hok
          exact Except.noConfusion hok
      · rw [if_neg hcase] at hstep
        have hloop : mergeNpmLoop pkg.devDependencies (pkg.dependencies.getD [])
            [(name, version)] =
            Except.ok (recSet (pkg.dependencies.getD []) name version) := by
          simp only [mergeNpmLoop, hstep]
        rw [mergeNpmDependenciesCore, hloop] at hok
        simp only [Except.ok.injEq] at hok
        rw [← hok]
        simp only [Option.getD_some, if_neg hcase]
        have hnd2 : (recKeys (recSet (pkg.dependencies.getD []) name version)).Nodup :=
          recKeys_recSet_nodup _ _ _ hnd
        rw [← recGet_perm _ _ (jsSortBy_perm (fun a b => nameLe a.1 b.1) _).symm hnd2 name]
        exact recGet_recSet_self _ _ _

/-- Witness for C10: a package present only in devDependencies. -/
theorem c10_dev_dependencies_retained_witness :
    recGet ((PackageJson.mk (some [("dev", "^1.2.0")])
        (some [("dev", "^1.0.0")])).devDependencies.getD []) "dev" =
      recGet ((PackageJson.mk (some []) (some [("dev", "^1.0.0")])).devDependencies.getD [])
        "dev" ∧
    recGet ((PackageJson.mk (some [("dev", "^1.2.0")])
        (some [("dev", "^1.0.0")])).dependencies.getD []) "dev" =
      some (if ("^1.0.0" : String) ≠ "" ∧ ("^1.0.0" : String) ≠ "^1.2.0" then
        (areRangesCompatible "^1.0.0" "^1.2.0").resolved else "^1.2.0") :=
  ⟨c10_dev_dependencies_retained.1 (PackageJson.mk (some []) (some [("dev", "^1.0.0")]))
      [("dev", "^1.2.0")]
      (PackageJson.mk (some [("dev", "^1.2.0")]) (some [("dev", "^1.0.0")]))
      (by decide) (by decide) "dev",
   c10_dev_dependencies_retained.2 (PackageJson.mk (some []) (some [("dev", "^1.0.0")]))
      "dev" "^1.2.0" "^1.0.0"
      (PackageJson.mk (some [("dev", "^1.2.0")]) (some [("dev", "^1.0.0")]))
      (by decide) (by decide) (by decide) (by decide)⟩

/-! ## Claim C1: the caret and tilde range-compatibility policy -/

theorem resolvedBranch_spec (e r : String) (eParts rParts : List String)
    (ha : ∀ s ∈ eParts, isDigitString s = true) (hb : ∀ s ∈ rParts, isDigitString s = true) :
    (if cvpGe0 (compareVersionParts eParts rParts) then e else r) =
      (if cmpPaddedNats (natsOf eParts) (natsOf rParts) = -1 then r else e) := by
  obtain ⟨cv, hcv, h1, h2, h3⟩ := compareVersionParts_spec eParts rParts ha hb
  rw [hcv]
  by_cases hc : cmpPaddedNats (natsOf eParts) (natsOf rParts) = -1
  · have hlt : cv < 0 := h1.mpr hc
    have hge : ¬ (0 ≤ cv) := by omega
    rw [if_pos hc]
    simp [cvpGe0, hge]
  · rw [if_neg hc]
    have hcases : cmpPaddedNats (natsOf eParts) (natsOf rParts) = -1 ∨
        cmpPaddedNats (natsOf eParts) (natsOf rParts) = 0 ∨
        cmpPaddedNats (natsOf eParts) (natsOf rParts) = 1 :=
      pairCmpN_cases (padZipN (natsOf eParts) (natsOf rParts))
    rcases hcases with hcc | hcc | hcc
    · exact absurd hcc hc
    · have hz : cv = 0 := h2.mpr hcc
      have hge : 0 ≤ cv := by omega
      simp [cvpGe0, hge]
    · have hp : 0 < cv := h3.mpr hcc
      have hge : 0 ≤ cv := by omega
      simp [cvpGe0, hge]

theorem jsStartsWith_one (c : Char) (s : String) :
    jsStartsWith s (String.mk [c]) = true ↔ ∃ rest, s.data = c :: rest := by
  unfold jsStartsWith
  have hmk : (String.mk [c]).data = [c] := rfl
  rw [hmk]
  cases hl : s.data with
  | nil =>
    constructor
    · intro h
      exact absurd h (by simp [List.isPrefixOf])
    · intro h
      obtain ⟨rest, hrest⟩ := h
      exact List.noConfusion hrest
  | cons b bs =>
    constructor
    · intro h
      simp only [List.isPrefixOf, Bool.and_eq_true] at h
      have hcb : c = b := eq_of_beq h.1
      exact ⟨bs, by rw [hcb]⟩
    · intro h
      obtain ⟨rest, hrest⟩ := h
      injection hrest with h1 h2
      simp [List.isPrefixOf, h1]

theorem startsWith_one_ne (c c2 : Char) (s : String) (hne : c2 ≠ c)
    (h : jsStartsWith s (String.mk [c]) = true) :
    jsStartsWith s (String.mk [c2]) = false := by
  obtain ⟨rest, hrest⟩ := (jsStartsWith_one c s).mp h
  unfold jsStartsWith
  have hmk : (String.mk [c2]).data = [c2] := rfl
  rw [hmk, hrest]
  simp [List.isPrefixOf, hne]

theorem ne_empty_of_startsWith (c : Char) (s : String)
    (h : jsStartsWith s (String.mk [c]) = true) : s ≠ "" := by
  obtain ⟨rest, hrest⟩ := (jsStartsWith_one c s).mp h
  intro he
  rw [he] at hrest
  exact List.noConfusion hrest

/-- C1: for a package on both sides of the npm merge, two caret ranges
with the same major component are compatible and resolve to the
numerically higher version (the requested one exactly when its version
is numerically above the existing one, the existing one otherwise);
two tilde ranges with the same major and minor resolve to the higher
patch; two caret ranges whose majors differ numerically make
mergeNpmDependencies throw the dependency-conflict error naming the
package and both ranges; and merging existing ^1.2.0 with incoming
^1.5.0 yields ^1.5.0. -/
theorem c1_npm_range_policy :
    (∀ e r : String,
      jsStartsWith e "^" = true → jsStartsWith r "^" = true →
      (∀ s ∈ jsSplitChar '.' (jsSlice1 e), isDigitString s = true) →
      (∀ s ∈ jsSplitChar '.' (jsSlice1 r), isDigitString s = true) →
      (jsSplitChar '.' (jsSlice1 e))[0]? = (jsSplitChar '.' (jsSlice1 r))[0]? →
      (areRangesCompatible e r).compatible = true ∧
      (areRangesCompatible e r).resolved =
        (if cmpPaddedNats (natsOf (jsSplitChar '.' (jsSlice1 e)))
            (natsOf (jsSplitChar '.' (jsSlice1 r))) = -1 then r else e)) ∧
    (∀ e r e0 e1 e2 r2 : String,
      jsStartsWith e "~" = true → jsStartsWith r "~" = true →
      jsSplitChar '.' (jsSlice1 e) = [e0, e1, e2] →
      jsSplitChar '.' (jsSlice1 r) = [e0, e1, r2] →
      (∀ s ∈ [e0, e1, e2], isDigitString s = true) →
      isDigitString r2 = true →
      (areRangesCompatible e r).compatible = true ∧
      (areRangesCompatible e r).resolved =
        (if componentVal e2 < componentVal r2 then r else e)) ∧
    (∀ (pkg : PackageJson) (name e r : String),
      recGet (pkg.dependencies.getD []) name = some e →
      jsStartsWith e "^" = true → jsStartsWith r "^" = true →
      (natsOf (jsSplitChar '.' (jsSlice1 e)))[0]? ≠
        (natsOf (jsSplitChar '.' (jsSlice1 r)))[0]? →
      mergeNpmDependenciesCore pkg [(name, r)] =
        Except.error (depConflictMsg name e r)) ∧
    mergeNpmDependenciesCore (PackageJson.mk (some [("pkg", "^1.2.0")]) none)
      [("pkg", "^1.5.0")] =
      Except.ok (PackageJson.mk (some [("pkg", "^1.5.0")]) none) := by
  refine ⟨?_, ?_, ?_, by decide⟩
  · intro e r hse hsr hde hdr hmaj
    by_cases heq : e = r
    · rw [heq]
      unfold areRangesCompatible
      rw [if_pos rfl]
      exact ⟨rfl, by simp [ite_self]⟩
    · unfold areRangesCompatible
      rw [if_neg heq]
      have hcc : (jsStartsWith e "^" && jsStartsWith r "^") = true := by
        rw [hse, hsr]
        rfl
      rw [if_pos hcc]
      have hnot : ¬ ((jsSplitChar '.' (jsSlice1 e))[0]? ≠
          (jsSplitChar '.' (jsSlice1 r))[0]?) := not_ne_iff.mpr hmaj
      rw [if_neg hnot]
      exact ⟨rfl, resolvedBranch_spec e r _ _ hde hdr⟩
  · intro e r e0 e1 e2 r2 hse hsr hesplit hrsplit hdigits hdr2
    have hd0 : isDigitString e0 = true := hdigits e0 (by simp)
    have hd1 : isDigitString e1 = true := hdigits e1 (by simp)
    have hd2 : isDigitString e2 = true := hdigits e2 (by simp)
    by_cases heq : e = r
    · rw [heq] at hesplit
      rw [hesplit] at hrsplit
      injection hrsplit with ha1 hrest1
      injection hrest1 with ha2 hrest2
      injection hrest2 with ha3 _
      rw [heq]
      unfold areRangesCompatible
      rw [if_pos rfl]
      refine ⟨rfl, ?_⟩
      rw [← ha3]
      simp [ite_self, lt_irrefl]
    · unfold areRangesCompatible
      rw [if_neg heq]
      have hnc : (jsStartsWith e "^" && jsStartsWith r "^") = false := by
        rw [startsWith_one_ne '~' '^' e (by decide) hse]
        rfl
      rw [hnc]
      simp only [Bool.false_eq_true, if_false]
      have htc : (jsStartsWith e "~" && jsStartsWith r "~") = true := by
        rw [hse, hsr]
        rfl
      rw [if_pos htc]
      have hnot : ¬ ((jsSplitChar '.' (jsSlice1 e))[0]? ≠
            (jsSplitChar '.' (jsSlice1 r))[0]? ∨
          (jsSplitChar '.' (jsSlice1 e))[1]? ≠ (jsSplitChar '.' (jsSlice1 r))[1]?) := by
        rw [hesplit, hrsplit]
        simp
      rw [if_neg hnot]
      refine ⟨rfl, ?_⟩
      have hresolved := resolvedBranch_spec e r (jsSplitChar '.' (jsSlice1 e))
        (jsSplitChar '.' (jsSlice1 r))
        (by rw [hesplit]; exact hdigits)
        (by
          rw [hrsplit]
          intro s hs
          rcases List.mem_cons.mp hs with rfl | hs2
          · exact hd0
          rcases List.mem_cons.mp hs2 with rfl | hs3
          · exact hd1
          rcases List.mem_cons.mp hs3 with rfl | hs4
          · exact hdr2
          · simp at hs4)
      rw [hresolved, hesplit, hrsplit]
      have hcmp : cmpPaddedNats (natsOf [e0, e1, e2]) (natsOf [e0, e1, r2]) =
          (if componentVal e2 < componentVal r2 then -1
           else if componentVal r2 < componentVal e2 then 1 else 0) := by
        simp [cmpPaddedNats, natsOf, padZipN, pairCmpN, lt_irrefl]
      rw [hcmp]
      by_cases hlt : componentVal e2 < componentVal r2
      · rw [if_pos hlt, if_pos hlt, if_pos rfl]
      · rw [if_neg hlt, if_neg hlt]
        by_cases hgt : componentVal r2 < componentVal e2
        · rw [if_pos hgt]
          simp
        · rw [if_neg hgt]
          simp
  · intro pkg name e r hget hse hsr hvne
    have hsne : (jsSplitChar '.' (jsSlice1 e))[0]? ≠ (jsSplitChar '.' (jsSlice1 r))[0]? := by
      intro hc
      apply hvne
      simp only [natsOf, List.getElem?_map, hc]
    have hener : e ≠ r := by
      intro hc
      exact hsne (by rw [hc])
    have harc : areRangesCompatible e r = ⟨false, e⟩ := by
      unfold areRangesCompatible
      rw [if_neg hener]
      have hcc : (jsStartsWith e "^" && jsStartsWith r "^") = true := by
        rw [hse, hsr]
        rfl
      rw [if_pos hcc, if_pos hsne]
    have hee : e ≠ "" := ne_empty_of_startsWith '^' e hse
    have hstep : mergeNpmStep pkg.devDependencies (pkg.dependencies.getD []) (name, r) =
        Except.error (depConflictMsg name e r) := by
      simp only [mergeNpmStep, hget, harc]
      rw [if_pos (⟨hee, hener⟩ : e ≠ "" ∧ e ≠ r)]
      rfl
    have hloop : mergeNpmLoop pkg.devDependencies (pkg.dependencies.getD []) [(name, r)] =
        Except.error (depConflictMsg name e r) := by
      simp only [mergeNpmLoop, hstep]
    simp only [mergeNpmDependenciesCore, hloop]

/-- Witness for C1 at the concrete ranges of the specification. -/
theorem c1_npm_range_policy_witness :
    ((areRangesCompatible "^1.2.0" "^1.5.0").compatible = true ∧
      (areRangesCompatible "^1.2.0" "^1.5.0").resolved =
        (if cmpPaddedNats (natsOf (jsSplitChar '.' (jsSlice1 "^1.2.0")))
            (natsOf (jsSplitChar '.' (jsSlice1 "^1.5.0"))) = -1
          then "^1.5.0" else "^1.2.0")) ∧
    ((areRangesCompatible "~1.2.3" "~1.2.5").compatible = true ∧
      (areRangesCompatible "~1.2.3" "~1.2.5").resolved =
        (if componentVal "3" < componentVal "5" then "~1.2.5" else "~1.2.3")) ∧
    mergeNpmDependenciesCore (PackageJson.mk (some [("pkg", "^1.2.0")]) none)
        [("pkg", "^2.0.0")] =
      Except.error (depConflictMsg "pkg" "^1.2.0" "^2.0.0") :=
  ⟨c1_npm_range_policy.1 "^1.2.0" "^1.5.0" (by decide) (by decide) (by decide) (by decide)
      (by decide),
   c1_npm_range_policy.2.1 "~1.2.3" "~1.2.5" "1" "2" "3" "5" (by decide) (by decide)
      (by decide) (by decide) (by decide) (by decide),
   c1_npm_range_policy.2.2.1 (PackageJson.mk (some [("pkg", "^1.2.0")]) none)
      "pkg" "^1.2.0" "^2.0.0" (by decide) (by decide) (by decide) (by decide)⟩

/-! ## Claim C7: the migration runner -/

theorem padZipN_nil_right : ∀ (b : List Nat), padZipN b [] = b.map (fun x => (x, 0)) := by
  intro b
  induction b with
  | nil => rfl
  | cons y ys ih =>
    simp only [padZipN, List.headD_nil, List.tail_nil, List.map_cons]
    rw [ih]

theorem padZipN_swap : ∀ (a b : List Nat),
    padZipN b a = (padZipN a b).map (fun p => (p.2, p.1)) := by
  intro a
  induction a with
  | nil =>
    intro b
    rw [padZipN_nil_right b]
    simp only [padZipN, List.map_map]
    rfl
  | cons x as iha =>
    intro b
    cases b with
    | nil =>
      simp only [padZipN, List.headD_nil, List.tail_nil, List.map_cons, List.map_nil]
      exact congrArg (List.cons (0, x)) (iha [])
    | cons y bs =>
      simp only [padZipN, List.headD_cons, List.tail_cons, List.map_cons]
      rw [iha bs]

theorem pairCmpN_swap : ∀ (l : List (Nat × Nat)),
    pairCmpN (l.map (fun p => (p.2, p.1))) = -pairCmpN l := by
  intro l
  induction l with
  | nil => rfl
  | cons p rest ih =>
    obtain ⟨x, y⟩ := p
    simp only [List.map_cons, pairCmpN]
    by_cases h1 : x < y
    · have h2 : ¬ y < x := by omega
      rw [if_neg h2, if_pos h1, if_pos h1]
      decide
    · by_cases h2 : y < x
      · rw [if_pos h2, if_neg h1, if_pos h2]
      · rw [if_neg h2, if_neg h1, if_neg h1, if_neg h2, ih]

theorem cmpPaddedNats_antisymm (a b : List Nat) : cmpPaddedNats b a = -cmpPaddedNats a b := by
  unfold cmpPaddedNats
  rw [padZipN_swap a b, pairCmpN_swap]

theorem compareSemver_total (a b : String) :
    (decide (compareSemver a b ≤ 0) = true) ∨ (decide (compareSemver b a ≤ 0) = true) := by
  have h := cmpPaddedNats_antisymm ((jsSplitChar '.' a).map componentVal)
    ((jsSplitChar '.' b).map componentVal)
  simp only [compareSemver, decide_eq_true_eq]
  omega

/-- Membership in the selected migration list: exactly the version-named
directories in range. -/
theorem mem_migrationVersions (entries : List DirEnt) (fromV toV v : String) :
    v ∈ migrationVersions entries fromV toV ↔
      ((∃ en ∈ entries, en.isDirectory = true ∧ isVersionName en.name = true ∧ en.name = v) ∧
       0 < compareSemver v fromV ∧ compareSemver v toV ≤ 0) := by
  unfold migrationVersions
  rw [List.Perm.mem_iff (jsSortBy_perm _ _)]
  simp only [List.mem_filter, List.mem_map, Bool.and_eq_true, decide_eq_true_eq]
  constructor
  · intro h
    obtain ⟨⟨en, ⟨hen, hdir, hver⟩, hname⟩, hlo, hhi⟩ := h
    exact ⟨⟨en, hen, hdir, hver, hname⟩, hlo, hhi⟩
  · intro h
    obtain ⟨⟨en, hen, hdir, hver, hname⟩, hlo, hhi⟩ := h
    exact ⟨⟨en, ⟨hen, hdir, hver⟩, hname⟩, hlo, hhi⟩

/-- C7: with no migrations directory the runner reports zero migrations
and exits 0; otherwise it runs exactly the version-named directories v
with from < v <= to (per compareSemver), in ascending compareSemver
order, reports one result per selected version with migrationsRun equal
to the result count and each result carrying the outcome recorded for
its version, and exits 0 exactly when every selected migration
succeeded (1 otherwise). -/
theorem c7_run_migrations :
    ∀ (entries : List DirEnt) (fromV toV : String) (outcome : String → Bool × Option String),
    (runMigrations false entries fromV toV outcome = MigrationRunOutput.mk 0 [] 0) ∧
    (∀ v, v ∈ (runMigrations true entries fromV toV outcome).results.map
        (fun r => r.version) ↔
      ((∃ en ∈ entries, en.isDirectory = true ∧ isVersionName en.name = true ∧ en.name = v) ∧
       0 < compareSemver v fromV ∧ compareSemver v toV ≤ 0)) ∧
    List.Chain' (fun a b => compareSemver a b ≤ 0)
      ((runMigrations true entries fromV toV outcome).results.map (fun r => r.version)) ∧
    (runMigrations true entries fromV toV outcome).migrationsRun =
      (runMigrations true entries fromV toV outcome).results.length ∧
    (∀ r ∈ (runMigrations true entries fromV toV outcome).results,
      r.success = (outcome r.version).1 ∧ r.error = (outcome r.version).2) ∧
    ((runMigrations true entries fromV toV outcome).exitCode = 0 ↔
      ∀ r ∈ (runMigrations true entries fromV toV outcome).results, r.success = true) ∧
    ((runMigrations true entries fromV toV outcome).exitCode = 0 ∨
     (runMigrations true entries fromV toV outcome).exitCode = 1) := by
  intro entries fromV toV outcome
  have hrun : runMigrations true entries fromV toV outcome =
      { migrationsRun := ((migrationVersions entries fromV toV).map (fun v =>
          MigrationResult.mk v (outcome v).1 (outcome v).2)).length
        results := (migrationVersions entries fromV toV).map (fun v =>
          MigrationResult.mk v (outcome v).1 (outcome v).2)
        exitCode := if ((migrationVersions entries fromV toV).map (fun v =>
            MigrationResult.mk v (outcome v).1 (outcome v).2)).any (fun r => !r.success)
          then 1 else 0 } := by
    simp [runMigrations]
  have hvers : (runMigrations true entries fromV toV outcome).results.map
      (fun r => r.version) = migrationVersions entries fromV toV := by
    rw [hrun]
    simp only [List.map_map]
    have hcomp : ((fun r => MigrationResult.version r) ∘ fun v =>
        MigrationResult.mk v (outcome v).1 (outcome v).2) = id := rfl
    rw [hcomp, List.map_id]
  refine ⟨by simp [runMigrations], ?_, ?_, ?_, ?_, ?_, ?_⟩
  · intro v
    rw [hvers]
    exact mem_migrationVersions entries fromV toV v
  · rw [hvers]
    unfold migrationVersions
    have hchain := chain_jsSortBy (fun a b => decide (compareSemver a b ≤ 0))
      compareSemver_total
      ((((entries.filter (fun e => e.isDirectory && isVersionName e.name)).map
          (fun e => e.name)).filter
        (fun v => decide (0 < compareSemver v fromV) &&
          decide (compareSemver v toV ≤ 0))))
    exact List.Chain'.imp (fun a b h => of_decide_eq_true h) hchain
  · rw [hrun]
  · intro r hr
    rw [hrun] at hr
    simp only [List.mem_map] at hr
    obtain ⟨v, _, hv⟩ := hr
    rw [← hv]
    exact ⟨rfl, rfl⟩
  · rw [hrun]
    simp only
    by_cases hany : ((migrationVersions entries fromV toV).map (fun v =>
        MigrationResult.mk v (outcome v).1 (outcome v).2)).any (fun r => !r.success) = true
    · rw [if_pos hany]
      simp only [List.any_eq_true, Bool.not_eq_true'] at hany
      obtain ⟨r, hr, hfail⟩ := hany
      constructor
      · intro hc
        exact absurd hc (by omega)
      · intro hall
        rw [hall r hr] at hfail
        exact Bool.noConfusion hfail
    · rw [if_neg hany]
      simp only [List.any_eq_true, Bool.not_eq_true'] at hany
      push_neg at hany
      constructor
      · intro _ r hr
        cases hs : r.success
        · exact absurd hs (hany r hr)
        · rfl
      · intro _
        rfl
  · rw [hrun]
    simp only
    by_cases hany : ((migrationVersions entries fromV toV).map (fun v =>
        MigrationResult.mk v (outcome v).1 (outcome v).2)).any (fun r => !r.success) = true
    · rw [if_pos hany]
      exact Or.inr rfl
    · rw [if_neg hany]
      exact Or.inl rfl

/-- Witness for C7 at a concrete migration tree. -/
theorem c7_run_migrations_witness :
    runMigrations false [DirEnt.mk "0.2.0" true] "0.1.0" "0.3.0"
        (fun _ => (true, none)) = MigrationRunOutput.mk 0 [] 0 ∧
    ("0.2.0" ∈ (runMigrations true [DirEnt.mk "0.2.0" true] "0.1.0" "0.3.0"
        (fun _ => (true, none))).results.map (fun r => r.version) ↔
      ((∃ en ∈ [DirEnt.mk "0.2.0" true], en.isDirectory = true ∧
          isVersionName en.name = true ∧ en.name = "0.2.0") ∧
       0 < compareSemver "0.2.0" "0.1.0" ∧ compareSemver "0.2.0" "0.3.0" ≤ 0)) :=
  ⟨(c7_run_migrations [DirEnt.mk "0.2.0" true] "0.1.0" "0.3.0" (fun _ => (true, none))).1,
   (c7_run_migrations [DirEnt.mk "0.2.0" true] "0.1.0" "0.3.0"
      (fun _ => (true, none))).2.1 "0.2.0"⟩

end Nanoclaw
